import Mathlib

/-!
Verification development for the core of the `libexfat` userspace exFAT
library (Rust).  The definitions below are a shallow embedding of the
relevant source functions: pure Rust functions become Lean functions,
methods mutating `&mut self` become explicit state-passing functions of type
`State → State × Except Err α` (so that partial mutations persist on error,
exactly as they do through a `&mut` borrow), machine integers become `Nat`
with explicit bounds where overflow or sentinel values matter, and `Vec<u8>`
buffers become `List Nat`.  Rust `assert!` failures (panics) are modelled by
the distinguished error value `Err.panicked`; loops are embedded as
structural recursion on an explicit iteration count equal to the bound of
the corresponding Rust loop.  Block-device reads and writes themselves are
modelled as infallible (the device content is part of the state); failures
that the sources derive from device *content* (invalid clusters, exhausted
bitmaps) are modelled exactly.
-/

namespace LibExfat

/-- Error values (`nix::errno::Errno`) returned by the embedded operations;
`panicked` models a Rust panic raised by a failed `assert!`. -/
inductive Err where
  | enospc
  | eio
  | efbig
  | ebusy
  | eisdir
  | enotdir
  | enotempty
  | einval
  | ecanceled
  | enoent
  | panicked
deriving DecidableEq, Repr

/-- Helper `util::div_round_up!(x, d)` = `x.div_ceil(d)`. -/
def divRoundUp (a b : Nat) : Nat := (a + b - 1) / b

/-- Helper `util::round_up!(x, d)`. -/
def roundUp (a b : Nat) : Nat := divRoundUp a b * b

namespace bitmap

/-- Bits per bitmap element: `Bitmap = u8` in src/bitmap.rs (default feature). -/
def SIZE_BITS : Nat := 8

/-- Value of `Bitmap::MAX` for the `u8` element type. -/
def ELEM_MAX : Nat := 255

/-- Sentinel `usize::MAX` returned by `find_and_set` when no bit is clear. -/
def USIZE_MAX : Nat := 2 ^ 64 - 1

/-- Embeds `bitmap::block`: array index of the element holding bit `index`. -/
def block (index : Nat) : Nat := index / SIZE_BITS

/-- Embeds `bitmap::mask`: the bit mask `1 << (index % SIZE_BITS)`. -/
def mask (index : Nat) : Nat := 1 <<< (index % SIZE_BITS)

/-- Embeds `bitmap::get`: `bitmap[block(index)] & mask(index)`.  Out-of-range
reads (a panic in Rust) are totalised to element value `0`; all theorems
below constrain indices to the allocated range. -/
def get (b : List Nat) (index : Nat) : Nat := b.getD (block index) 0 &&& mask index

/-- Embeds `bitmap::set`: `bitmap[block(index)] |= mask(index)`. -/
def bset (b : List Nat) (index : Nat) : List Nat :=
  b.set (block index) (b.getD (block index) 0 ||| mask index)

/-- Embeds `bitmap::clear`: `bitmap[block(index)] &= !mask(index)` (the `u8`
complement of `mask` is `255 ^^^ mask`). -/
def bclear (b : List Nat) (index : Nat) : List Nat :=
  b.set (block index) (b.getD (block index) 0 &&& (ELEM_MAX ^^^ mask index))

/-- Inner loop of `find_and_set`: the Rust `for c in start_bitindex..end_bitindex`
scan for a clear bit, embedded structurally on the iteration count `n`
(`n = end_bitindex - start_bitindex` at the call site). -/
def scanFrom (b : List Nat) : Nat → Nat → Option Nat
  | _, 0 => none
  | c, n + 1 => if get b c = 0 then some c else scanFrom b (c + 1) n

/-- Outer loop of `find_and_set`: the Rust `for i in start_index..end_index`
over elements, skipping fully-set (`Bitmap::MAX`) elements, embedded
structurally on the remaining element count `n`. -/
def scanBlocks (b : List Nat) (start stop : Nat) : Nat → Nat → Option Nat
  | _, 0 => none
  | i, n + 1 =>
    if b.getD i 0 = ELEM_MAX then scanBlocks b start stop (i + 1) n
    else
      let lo := max (i * SIZE_BITS) start
      let hi := min ((i + 1) * SIZE_BITS) stop
      match scanFrom b lo (hi - lo) with
      | some c => some c
      | none => scanBlocks b start stop (i + 1) n

/-- Embeds `bitmap::find_and_set(bitmap, start, end)`: scan `[start, end)` for
the first clear bit; on success set it and return its index, otherwise
return `usize::MAX` (the bitmap is returned alongside the index, modelling
the `&mut` argument). -/
def find_and_set (b : List Nat) (start stop : Nat) : Nat × List Nat :=
  let start_index := start / SIZE_BITS
  let end_index := divRoundUp stop SIZE_BITS
  match scanBlocks b start stop start_index (end_index - start_index) with
  | some c => (c, bset b c)
  | none => (USIZE_MAX, b)

end bitmap

/-- Constant `exfatfs::EXFAT_FIRST_DATA_CLUSTER`.  Modelled from the spec:
the module `exfatfs`/`fs` is not under src/; the spec fixes
`FIRST_DATA_CLUSTER = 2`. -/
def EXFAT_FIRST_DATA_CLUSTER : Nat := 2

/-- Constant `exfatfs::EXFAT_CLUSTER_FREE`.  Modelled from the spec: special
FAT value `FREE = 0`. -/
def EXFAT_CLUSTER_FREE : Nat := 0

/-- Constant `exfatfs::EXFAT_CLUSTER_END`.  Modelled from the spec: special
FAT value `END = 0xFFFFFFFF`. -/
def EXFAT_CLUSTER_END : Nat := 0xFFFFFFFF

/-- Constant `exfatfs::EXFAT_CLUSTER_BAD`.  Modelled from the spec: special
FAT value `BAD = 0xFFFFFFF7`. -/
def EXFAT_CLUSTER_BAD : Nat := 0xFFFFFFF7

/-- Constant `node::NID_ROOT`.  Modelled from the spec: the root nid is the
constant 1. -/
def NID_ROOT : Nat := 1

/-- Constant `node::NID_INVALID`.  Modelled from the spec: the invalid parent
nid marker (`pnid` of the root); the only nid below `NID_ROOT`, i.e. 0. -/
def NID_INVALID : Nat := 0

/-- Constant `exfatfs::EXFAT_ATTRIB_DIR`.  Modelled from the spec (on-disk
attribute directory bit, `0x10` in exFAT 1.0). -/
def EXFAT_ATTRIB_DIR : Nat := 0x10

/-- Constant `exfatfs::EXFAT_STATE_MOUNTED`.  Modelled from the spec: the
MOUNTED bit of the 16-bit volume state (bit 1, value 2, in exFAT 1.0). -/
def EXFAT_STATE_MOUNTED : Nat := 2

/-- Largest `u32` value; `bytes2clusters` fails with `EFBIG` beyond it. -/
def U32_MAX : Nat := 2 ^ 32 - 1

/-- On-disk super block fields used by the embedded operations
(`exfatfs::ExfatSuperBlock`); all multi-byte fields are kept as the decoded
little-endian values. -/
structure ExfatSuperBlock where
  sector_bits : Nat
  spc_bits : Nat
  fat_sector_start : Nat
  cluster_sector_start : Nat
  cluster_count : Nat
  sector_count : Nat
  rootdir_cluster : Nat
  volume_state : Nat
  version_major : Nat
  version_minor : Nat
  fat_count : Nat
  oem_name : List Nat
  allocated_percent : Nat
deriving DecidableEq, Repr

/-- Embeds `ExfatSuperBlock::get_sector_size`: `1 << sector_bits`. -/
def getSectorSize (sb : ExfatSuperBlock) : Nat := 1 <<< sb.sector_bits

/-- Embeds `ExfatSuperBlock::get_cluster_size`: `get_sector_size() << spc_bits`. -/
def getClusterSize (sb : ExfatSuperBlock) : Nat := getSectorSize sb <<< sb.spc_bits

/-- Embeds `Exfat::s2o`: sector to absolute byte offset. -/
def s2o (sb : ExfatSuperBlock) (sector : Nat) : Nat := sector <<< sb.sector_bits

/-- Embeds `Exfat::c2s`: cluster to sector (the source asserts
`cluster >= EXFAT_FIRST_DATA_CLUSTER`; theorems carry that hypothesis). -/
def c2s (sb : ExfatSuperBlock) (cluster : Nat) : Nat :=
  sb.cluster_sector_start + ((cluster - EXFAT_FIRST_DATA_CLUSTER) <<< sb.spc_bits)

/-- Embeds `Exfat::c2o`: cluster to absolute byte offset. -/
def c2o (sb : ExfatSuperBlock) (cluster : Nat) : Nat := s2o sb (c2s sb cluster)

/-- Embeds `Exfat::cluster_invalid`. -/
def clusterInvalid (sb : ExfatSuperBlock) (c : Nat) : Bool :=
  c < EXFAT_FIRST_DATA_CLUSTER || sb.cluster_count ≤ c - EXFAT_FIRST_DATA_CLUSTER

/-- In-memory node fields used by the cluster and I/O layers
(`node::ExfatNode`; the struct's module is not under src/, the fields and
their meaning are those listed in the spec's data model and used throughout
src/exfat.rs). -/
structure ExfatNode where
  start_cluster : Nat
  size : Nat
  valid_size : Nat
  is_contiguous : Bool
  is_dirty : Bool
  references : Nat
  pnid : Nat
  fptr_index : Nat
  fptr_cluster : Nat
  mtime : Nat
  atime : Nat
  attrib : Nat
deriving DecidableEq, Repr

/-- Embeds `ExfatNode::is_directory`: the `EXFAT_ATTRIB_DIR` bit of `attrib`. -/
def isDirectory (n : ExfatNode) : Bool := n.attrib &&& EXFAT_ATTRIB_DIR ≠ 0

/-- Volume state for the cluster-allocator / file I/O layer of `Exfat`,
restricted to one node under operation (all cited operations act on a single
`nid`).  `fat` maps a cluster number to its decoded 32-bit FAT entry (the
on-device FAT region); `disk` maps an absolute byte offset to the byte
stored there (the data region); `now` is the current time used by
`update_mtime`/`update_atime`. -/
structure VState where
  sb : ExfatSuperBlock
  node : ExfatNode
  fat : Nat → Nat
  disk : Nat → Nat
  cmapChunk : List Nat
  cmapSize : Nat
  cmapChunkSize : Nat
  cmapDirty : Bool
  errors : Nat
  errors_fixed : Nat
  ro : Int
  noatime : Bool
  now : Nat

/-- Embeds `Exfat::next_cluster` for the operated node: contiguous files step
to `cluster + 1`, otherwise the FAT entry is read (device reads are
infallible in this model, so the `EXFAT_CLUSTER_BAD` error path does not
arise; the source's assert `cluster >= FIRST_DATA_CLUSTER` is carried as a
hypothesis where needed). -/
def nextCluster (s : VState) (cluster : Nat) : Nat :=
  if s.node.is_contiguous then cluster + 1 else s.fat cluster

/-- Loop of `Exfat::advance_cluster`: `for _ in node.fptr_index..count`,
embedded structurally on the remaining step count; each step advances
`fptr_cluster` and fails with `EIO` if it became invalid. -/
def advanceLoop (count : Nat) : Nat → VState → VState × Except Err Nat
  | 0, s =>
    let s := { s with node := { s.node with fptr_index := count } }
    (s, .ok s.node.fptr_cluster)
  | n + 1, s =>
    let c := nextCluster s s.node.fptr_cluster
    let s := { s with node := { s.node with fptr_cluster := c } }
    if clusterInvalid s.sb c then (s, .error .eio)
    else advanceLoop count n s

/-- Embeds `Exfat::advance_cluster(nid, count)`. -/
def advanceCluster (s : VState) (count : Nat) : VState × Except Err Nat :=
  let s :=
    if s.node.fptr_index > count then
      { s with node := { s.node with fptr_index := 0, fptr_cluster := s.node.start_cluster } }
    else s
  advanceLoop count (count - s.node.fptr_index) s

/-- Embeds `Exfat::ffas` (= `ffas_cluster`): `find_and_set` over the free
bitmap, `ENOSPC` on the sentinel, else `FIRST_DATA_CLUSTER + index`. -/
def ffas (b : List Nat) (start stop : Nat) : Except Err Nat × List Nat :=
  let r := bitmap.find_and_set b start stop
  if r.fst = bitmap.USIZE_MAX then (.error .enospc, r.snd)
  else (.ok (EXFAT_FIRST_DATA_CLUSTER + r.fst), r.snd)

/-- Hint normalisation performed at the top of `Exfat::allocate_cluster`. -/
def normHint (s : VState) (hint : Nat) : Nat :=
  if hint < EXFAT_FIRST_DATA_CLUSTER then 0
  else if hint - EXFAT_FIRST_DATA_CLUSTER ≥ s.cmapChunkSize then 0
  else hint - EXFAT_FIRST_DATA_CLUSTER

/-- Embeds `Exfat::allocate_cluster(hint)`: search `[hint, chunk_size)` then
`[0, hint)`; on success mark the bitmap dirty. -/
def allocateCluster (s : VState) (hint : Nat) : VState × Except Err Nat :=
  let hint := normHint s hint
  match ffas s.cmapChunk hint s.cmapChunkSize with
  | (.ok c, bm) => ({ s with cmapChunk := bm, cmapDirty := true }, .ok c)
  | (.error _, _) =>
    match ffas s.cmapChunk 0 hint with
    | (.ok c, bm) => ({ s with cmapChunk := bm, cmapDirty := true }, .ok c)
    | (.error e, _) => (s, .error e)

/-- Embeds `Exfat::free_cluster(cluster)`: clear the corresponding bit and
mark the bitmap dirty (the source asserts
`cluster - FIRST_DATA_CLUSTER < cmap.size`; callers establish it via
`cluster_invalid`). -/
def freeCluster (s : VState) (cluster : Nat) : VState :=
  { s with
    cmapChunk := bitmap.bclear s.cmapChunk (cluster - EXFAT_FIRST_DATA_CLUSTER)
    cmapDirty := true }

/-- Embeds `Exfat::set_next_cluster(contiguous, current, next)`: a no-op for
contiguous files, otherwise the FAT entry of `current` is overwritten
(device writes are infallible in this model). -/
def setNextCluster (s : VState) (contiguous : Bool) (current next : Nat) : VState :=
  if contiguous then s
  else { s with fat := fun c => if c = current then next else s.fat c }

/-- Embeds `Exfat::make_noncontiguous(first, last)`: write FAT entries
`c -> c + 1` for `c in first..last`, embedded structurally on the iteration
count (`last - first` at the call site). -/
def makeNoncontiguous (s : VState) : Nat → Nat → VState
  | _, 0 => s
  | first, n + 1 => makeNoncontiguous (setNextCluster s false first (first + 1)) (first + 1) n

/-- Free loop of `Exfat::shrink_file`: `while difference > 0`, structurally on
`difference`; each round validates the cluster, writes `FREE` into its FAT
entry (unless contiguous) and clears its bitmap bit. -/
def shrinkFreeLoop : Nat → VState → Nat → VState × Except Err Unit
  | 0, s, _ => (s, .ok ())
  | n + 1, s, previous =>
    if clusterInvalid s.sb previous then (s, .error .eio)
    else
      let next := nextCluster s previous
      let s := setNextCluster s s.node.is_contiguous previous EXFAT_CLUSTER_FREE
      let s := freeCluster s previous
      shrinkFreeLoop n s next

/-- Embeds `Exfat::shrink_file(nid, current, difference)`.  The source asserts
`difference != 0`, `start_cluster != FREE` and `current >= difference`;
those panics are modelled as `Err.panicked` with the state unchanged. -/
def shrinkFile (s : VState) (current difference : Nat) : VState × Except Err Unit :=
  if difference = 0 then (s, .error .panicked)
  else if s.node.start_cluster = EXFAT_CLUSTER_FREE then (s, .error .panicked)
  else if current < difference then (s, .error .panicked)
  else
    let cont : VState × Except Err Nat :=
      if current > difference then
        match advanceCluster s (current - difference - 1) with
        | (s, .error e) => (s, .error e)
        | (s, .ok last) =>
          let previous := nextCluster s last
          let s := setNextCluster s s.node.is_contiguous last EXFAT_CLUSTER_END
          (s, .ok previous)
      else
        let previous := s.node.start_cluster
        let s := { s with node :=
          { s.node with start_cluster := EXFAT_CLUSTER_FREE, is_dirty := true } }
        (s, .ok previous)
    match cont with
    | (s, .error e) => (s, .error e)
    | (s, .ok previous) =>
      let s := { s with node :=
        { s.node with fptr_index := 0, fptr_cluster := s.node.start_cluster } }
      shrinkFreeLoop difference s previous

/-- Allocation loop of `Exfat::grow_file`: `while allocated < difference`,
embedded structurally on a fuel that is at least the remaining iteration
count (`difference` at both call sites); on loop exit the chain is
terminated with `EXFAT_CLUSTER_END`.  On an allocation failure after at
least one appended cluster, the already-appended clusters are shrunk back
(ignoring the outcome) and the original error is returned. -/
def growLoop : Nat → VState → Nat → Nat → Nat → Nat → VState × Except Err Unit
  | 0, s, previous, _, _, _ =>
    (setNextCluster s s.node.is_contiguous previous EXFAT_CLUSTER_END, .ok ())
  | fuel + 1, s, previous, current, difference, allocated =>
    if allocated < difference then
      match allocateCluster s (previous + 1) with
      | (s, .error e) =>
        if allocated ≠ 0 then ((shrinkFile s (current + allocated) allocated).fst, .error e)
        else (s, .error e)
      | (s, .ok next) =>
        let s :=
          if next ≠ previous + 1 ∧ s.node.is_contiguous = true then
            let s := makeNoncontiguous s s.node.start_cluster
              (previous - s.node.start_cluster)
            { s with node := { s.node with is_contiguous := false, is_dirty := true } }
          else s
        let s := setNextCluster s s.node.is_contiguous previous next
        growLoop fuel s next current difference (allocated + 1)
    else (setNextCluster s s.node.is_contiguous previous EXFAT_CLUSTER_END, .ok ())

/-- Embeds `Exfat::grow_file(nid, current, difference)` (the source asserts
`difference != 0`). -/
def growFile (s : VState) (current difference : Nat) : VState × Except Err Unit :=
  if difference = 0 then (s, .error .panicked)
  else if s.node.start_cluster ≠ EXFAT_CLUSTER_FREE then
    match advanceCluster s (current - 1) with
    | (s, .error e) => (s, .error e)
    | (s, .ok previous) => growLoop difference s previous current difference 0
  else
    match allocateCluster s 0 with
    | (s, .error e) => (s, .error e)
    | (s, .ok previous) =>
      let s := { s with node := { s.node with
        fptr_cluster := previous, start_cluster := previous, is_contiguous := true } }
      growLoop difference s previous current difference 1

/-- Embeds `Exfat::bytes2clusters(bytes)`: size in clusters rounded upwards,
`EFBIG` when the value does not fit in `u32`. -/
def bytes2clusters (s : VState) (bytes : Nat) : Except Err Nat :=
  let v := divRoundUp bytes (getClusterSize s.sb)
  if v ≤ U32_MAX then .ok v else .error .efbig

/-- Embeds `Exfat::erase_raw(size, offset)`: write `size` zero bytes (from the
zero-cluster scratch) at absolute offset `offset`. -/
def eraseRaw (s : VState) (size offset : Nat) : VState :=
  { s with disk := fun a => if offset ≤ a ∧ a < offset + size then 0 else s.disk a }

/-- Whole-cluster loop of `Exfat::erase_range`:
`while cluster_boundary < end`, structurally on a fuel that is at least the
iteration count (`end - cluster_boundary` suffices, the boundary grows by a
full cluster each round); the source asserts the stepped-to cluster valid. -/
def eraseClustersLoop (stop : Nat) : Nat → VState → Nat → Nat → VState × Except Err Unit
  | 0, s, _, _ => (s, .ok ())
  | fuel + 1, s, cluster, boundary =>
    if boundary < stop then
      let cluster := nextCluster s cluster
      if clusterInvalid s.sb cluster then (s, .error .panicked)
      else
        let cs := getClusterSize s.sb
        let s := eraseRaw s cs (c2o s.sb cluster)
        eraseClustersLoop stop fuel s cluster (boundary + cs)
    else (s, .ok ())

/-- Embeds `Exfat::erase_range(nid, begin, end)`: zero-fill `[begin, end)`
cluster by cluster. -/
def eraseRange (s : VState) (start stop : Nat) : VState × Except Err Unit :=
  if start ≥ stop then (s, .ok ())
  else
    let cs := getClusterSize s.sb
    if start / cs > U32_MAX then (s, .error .einval)
    else
      match advanceCluster s (start / cs) with
      | (s, .error e) => (s, .error e)
      | (s, .ok cluster) =>
        let boundary := (start ||| (cs - 1)) + 1
        let s := eraseRaw s (min boundary stop - start) (c2o s.sb cluster + start % cs)
        eraseClustersLoop stop (stop - boundary) s cluster boundary

/-- Embeds `Exfat::truncate(nid, size, erase)`.  The source first asserts
`references != 0 || pnid == NID_INVALID` (modelled as `Err.panicked`),
returns immediately when the size is unchanged, then grows or shrinks the
cluster chain, updates `valid_size` (zero-filling `[valid_size, size)` when
`erase`), bumps mtime, sets the new size and marks the node dirty. -/
def truncate (s : VState) (size : Nat) (erase : Bool) : VState × Except Err Unit :=
  if ¬ (s.node.references ≠ 0 ∨ s.node.pnid = NID_INVALID) then (s, .error .panicked)
  else if s.node.size = size then (s, .ok ())
  else
    match bytes2clusters s s.node.size with
    | .error e => (s, .error e)
    | .ok c1 =>
      match bytes2clusters s size with
      | .error e => (s, .error e)
      | .ok c2 =>
        let step : VState × Except Err Unit :=
          if c1 < c2 then growFile s c1 (c2 - c1)
          else if c2 < c1 then shrinkFile s c1 (c1 - c2)
          else (s, .ok ())
        match step with
        | (s, .error e) => (s, .error e)
        | (s, .ok _) =>
          let vstep : VState × Except Err Unit :=
            if erase then
              match eraseRange s s.node.valid_size size with
              | (s, .error e) => (s, .error e)
              | (s, .ok _) =>
                ({ s with node := { s.node with valid_size := size } }, .ok ())
            else
              ({ s with node :=
                { s.node with valid_size := min s.node.valid_size size } }, .ok ())
          match vstep with
          | (s, .error e) => (s, .error e)
          | (s, .ok _) =>
            ({ s with node := { s.node with
                mtime := s.now, size := size, is_dirty := true } }, .ok ())

/-- Bytes read from the device: `buf.len()` bytes starting at absolute offset
`off` (`ExfatDevice::pread`, infallible in this model). -/
def readRange (d : Nat → Nat) (off n : Nat) : List Nat :=
  (List.range n).map fun k => d (off + k)

/-- Zero-fill of `buf[start..start + n]`, the
`for i in 0..n { buf[bytes + i] = 0 }` loop of `Exfat::pread`. -/
def zeroFill (buf : List Nat) (start n : Nat) : List Nat :=
  buf.take start ++ List.replicate n 0 ++ buf.drop (start + n)

/-- Cluster-read loop of `Exfat::pread`: `while remainder > 0`, embedded
structurally on a fuel that is at least the iteration count (`remainder`
suffices, every round reads at least one byte).  The state is read-only
here, so only the running buffer is threaded. -/
def preadLoop (s : VState) : Nat → Nat → Nat → Nat → Nat → List Nat →
    Except Err (Nat × List Nat)
  | 0, _, _, remainder, _, buf => .ok (remainder, buf)
  | fuel + 1, cluster, loffset, remainder, i, buf =>
    if remainder = 0 then .ok (0, buf)
    else if clusterInvalid s.sb cluster then .error .eio
    else
      let cs := getClusterSize s.sb
      let lsize := min (cs - loffset) remainder
      let chunk := readRange s.disk (c2o s.sb cluster + loffset) lsize
      let buf := buf.take i ++ chunk ++ buf.drop (i + lsize)
      preadLoop s fuel (nextCluster s cluster) 0 (remainder - lsize) (i + lsize) buf

/-- Cluster-read path of `Exfat::pread` (source lines after the valid-size
branch): advance to the cluster containing `offset`, read
`min(len, size - offset)` bytes chunk by chunk, then update atime unless the
node is a directory, the volume is read-only or `noatime` is set. -/
def preadData (s : VState) (buf : List Nat) (offset : Nat) : VState × Except Err (Nat × List Nat) :=
  let size := buf.length
  let nsz := s.node.size
  let cs := getClusterSize s.sb
  if offset / cs > U32_MAX then (s, .error .panicked)
  else
    match advanceCluster s (offset / cs) with
    | (s, .error e) => (s, .error e)
    | (s, .ok cluster) =>
      match preadLoop s (min size (nsz - offset)) cluster (offset % cs)
          (min size (nsz - offset)) 0 buf with
      | .error e => (s, .error e)
      | .ok (remainder, buf) =>
        let s :=
          if isDirectory s.node = false ∧ s.ro = 0 ∧ s.noatime = false then
            { s with node := { s.node with atime := s.now } }
          else s
        (s, .ok (min size (nsz - offset) - remainder, buf))

/-- Embeds `Exfat::pread(nid, buf, offset)`; returns the byte count and the
updated buffer.  The source recurses once on the prefix
`buf[..valid_size - offset]`; that inner call always satisfies
`offset + len = valid_size <= size`, i.e. it takes the cluster-read path, so
the recursion is embedded directly as `preadData`. -/
def pread (s : VState) (buf : List Nat) (offset : Nat) : VState × Except Err (Nat × List Nat) :=
  let size := buf.length
  let vsz := s.node.valid_size
  let nsz := s.node.size
  if offset ≥ nsz ∨ size = 0 then (s, .ok (0, buf))
  else if offset + size > vsz then
    if offset < vsz then
      match preadData s (buf.take (vsz - offset)) offset with
      | (s, .error e) => (s, .error e)
      | (s, .ok (bytes, pre)) =>
        let buf := pre ++ buf.drop (vsz - offset)
        if bytes < vsz - offset then (s, .ok (bytes, buf))
        else
          let buf := zeroFill buf bytes (min (size - bytes) (nsz - vsz))
          (s, .ok (min size (nsz - offset), buf))
    else
      let buf := zeroFill buf 0 (min size (nsz - vsz))
      (s, .ok (min size (nsz - offset), buf))
  else preadData s buf offset

/-- Expected OEM name bytes, the 8-byte ASCII string `EXFAT   `. -/
def OEM_NAME_EXFAT : List Nat := [0x45, 0x58, 0x46, 0x41, 0x54, 0x20, 0x20, 0x20]

/-- Embeds the super-block validation sequence of `Exfat::mount` (the device
reads, VBR checksum verification and root/directory construction around it
are not part of this function).  Each rejected condition returns `EIO`; the
file-system-in-sectors bound and the MOUNTED state bit only produce
warnings in the source and deliberately do not appear here. -/
def sbCheck (sb : ExfatSuperBlock) (devSize : Nat) : Except Err Unit :=
  if sb.oem_name ≠ OEM_NAME_EXFAT then .error .eio
  else if sb.sector_bits < 9 then .error .eio
  else if sb.sector_bits + sb.spc_bits > 25 then .error .eio
  else if ¬ (sb.version_major = 1 ∧ sb.version_minor = 0) then .error .eio
  else if sb.fat_count ≠ 1 then .error .eio
  else if sb.cluster_count * getClusterSize sb > devSize then .error .eio
  else .ok ()

/-- Node fields used by the node-map layer (`unlink`/`rmdir`/`delete`). -/
structure CNode where
  pnid : Nat
  cnids : List Nat
  references : Nat
  attrib : Nat
  is_cached : Bool
  is_dirty : Bool
deriving DecidableEq, Repr

/-- The in-memory node map (`Exfat::nmap`), as an association list keyed by
nid. -/
def NodeMap : Type := List (Nat × CNode)

/-- Lookup in the node map (`nmap.get(nid)`). -/
def nmLookup (m : NodeMap) (nid : Nat) : Option CNode :=
  match List.find? (fun p => p.fst = nid) m with
  | some p => some p.snd
  | none => none

/-- Directory test on map-layer nodes (`ExfatNode::is_directory`). -/
def cnIsDirectory (n : CNode) : Bool := n.attrib &&& EXFAT_ATTRIB_DIR ≠ 0

/-- Embeds `Exfat::nmap_detach(dnid, nid)`: remove `nid` from the parent's
child list and drop it from the map. -/
def nmDetach (m : NodeMap) (dnid nid : Nat) : NodeMap :=
  (List.filter (fun p => ¬ p.fst = nid) m).map fun p =>
    if p.fst = dnid then (p.fst, { p.snd with cnids := p.snd.cnids.erase nid }) else p

/-- Embeds `Exfat::cache_directory` for an already-cached directory (the
source returns `Ok` immediately then).  Modelled from the spec: parsing an
uncached directory reads device entries through the `fs`/`node` modules
which are not under src/, so the uncached case is mapped to `EIO` and every
theorem about it carries an `is_cached` hypothesis. -/
def cacheDirectory (m : NodeMap) (nid : Nat) : NodeMap × Except Err Unit :=
  match nmLookup m nid with
  | none => (m, .error .panicked)
  | some n => if n.is_cached then (m, .ok ()) else (m, .error .eio)

/-- Embeds the node-map effect of `Exfat::delete(nid)`: the directory-entry
erasure, cluster freeing (`truncate(nid, 0, true)`), opportunistic parent
shrinking and parent flush act on the device and cluster layer and are
modelled as succeeding; at the node-map level the node is detached from its
parent and removed. -/
def deleteNode (m : NodeMap) (nid : Nat) : NodeMap × Except Err Unit :=
  match nmLookup m nid with
  | none => (m, .error .panicked)
  | some n => (nmDetach m n.pnid nid, .ok ())

/-- Embeds `Exfat::unlink(nid)`. -/
def unlink (m : NodeMap) (nid : Nat) : NodeMap × Except Err Unit :=
  match nmLookup m nid with
  | none => (m, .error .panicked)
  | some node =>
    if node.references > 1 then (m, .error .ebusy)
    else if cnIsDirectory node then (m, .error .eisdir)
    else deleteNode m nid

/-- Embeds `Exfat::rmdir(nid)`. -/
def rmdir (m : NodeMap) (nid : Nat) : NodeMap × Except Err Unit :=
  match nmLookup m nid with
  | none => (m, .error .panicked)
  | some node =>
    if node.references > 1 then (m, .error .ebusy)
    else if cnIsDirectory node = false then (m, .error .enotdir)
    else
      match cacheDirectory m nid with
      | (m, .error e) => (m, .error e)
      | (m, .ok _) =>
        match nmLookup m nid with
        | none => (m, .error .panicked)
        | some node =>
          if node.cnids ≠ [] then (m, .error .enotempty)
          else deleteNode m nid

/-- Embeds `Exfat::count_errors_fixed` (extra.rs): a successful repair bumps
only the `errors_fixed` counter. -/
def countErrorsFixed (s : VState) : VState := { s with errors_fixed := s.errors_fixed + 1 }

/-- Embeds `Exfat::get_errors` (extra.rs). -/
def getErrors (s : VState) : Nat := s.errors

/-- One operation of the embedded engine layer, as a relation on volume
states (each constructor applies one of the state-mutating operations
defined above, whatever its outcome). -/
inductive EngineStep : VState → VState → Prop where
  | truncate (s : VState) (n : Nat) (e : Bool) : EngineStep s (truncate s n e).fst
  | growFile (s : VState) (c d : Nat) : EngineStep s (growFile s c d).fst
  | shrinkFile (s : VState) (c d : Nat) : EngineStep s (shrinkFile s c d).fst
  | allocateCluster (s : VState) (h : Nat) : EngineStep s (allocateCluster s h).fst
  | freeCluster (s : VState) (c : Nat) : EngineStep s (freeCluster s c)
  | advanceCluster (s : VState) (c : Nat) : EngineStep s (advanceCluster s c).fst
  | setNextCluster (s : VState) (ct : Bool) (c n : Nat) : EngineStep s (setNextCluster s ct c n)
  | pread (s : VState) (b : List Nat) (o : Nat) : EngineStep s (pread s b o).fst
  | eraseRange (s : VState) (a b : Nat) : EngineStep s (eraseRange s a b).fst
  | countErrorsFixed (s : VState) : EngineStep s (countErrorsFixed s)

/-- States reachable from a fresh mount: `Exfat::new` initialises
`errors := 0`, and engine operations step from there. -/
inductive ReachableSt : VState → Prop where
  | fresh (s : VState) (h : s.errors = 0) : ReachableSt s
  | step (s t : VState) (hs : ReachableSt s) (st : EngineStep s t) : ReachableSt t

/-- Every bit of `[lo, hi)` is set in the bit vector `b`. -/
def allSet (b : List Nat) (lo hi : Nat) : Prop :=
  ∀ j, lo ≤ j → j < hi → bitmap.get b j ≠ 0

/-- Index `c` is the smallest clear bit of `b` in `[lo, hi)`. -/
def leastClear (b : List Nat) (lo hi c : Nat) : Prop :=
  lo ≤ c ∧ c < hi ∧ bitmap.get b c = 0 ∧ ∀ j, lo ≤ j → j < c → bitmap.get b j ≠ 0

/-- Concrete super block used by witnesses: 512-byte sectors, one sector per
cluster, four data clusters. -/
def sbW : ExfatSuperBlock :=
  { sector_bits := 9, spc_bits := 0, fat_sector_start := 1, cluster_sector_start := 4,
    cluster_count := 4, sector_count := 8, rootdir_cluster := 2, volume_state := 0,
    version_major := 1, version_minor := 0, fat_count := 1, oem_name := OEM_NAME_EXFAT,
    allocated_percent := 0 }

/-- Concrete volume state used by witnesses and counterexamples: a contiguous
single-cluster file occupying cluster 2 with no initialised data. -/
def vsW : VState :=
  { sb := sbW
    node := { start_cluster := 2, size := 512, valid_size := 0, is_contiguous := true,
              is_dirty := false, references := 1, pnid := 5, fptr_index := 0,
              fptr_cluster := 2, mtime := 0, atime := 0, attrib := 0 }
    fat := fun _ => 0
    disk := fun _ => 0
    cmapChunk := [1]
    cmapSize := 4
    cmapChunkSize := 4
    cmapDirty := false
    errors := 0
    errors_fixed := 0
    ro := 0
    noatime := false
    now := 7 }

/-- Concrete volume state whose free bitmap is exhausted (all four tracked
bits set): every allocation returns `ENOSPC`. -/
def vsFull : VState :=
  { vsW with cmapChunk := [0x0f] }

/-- Concrete map-layer node used by witnesses: a cached, childless plain file
with one reference, child of the root. -/
def cnodeW : CNode :=
  { pnid := 1, cnids := [], references := 1, attrib := 0, is_cached := true,
    is_dirty := false }

/-- Concrete root directory for the witness node map. -/
def cnodeRootW : CNode :=
  { pnid := 0, cnids := [5], references := 1, attrib := 0x10, is_cached := true,
    is_dirty := false }

/-- Concrete node map used by witnesses: the root (nid 1) with one child file
(nid 5). -/
def nmapW : NodeMap := [(1, cnodeRootW), (5, cnodeW)]

/-- Cluster chain of the operated node: `clusterAt s k` is the cluster
reached from `start_cluster` by `k` applications of `next_cluster` (the
spec's FAT-chain walk). -/
def clusterAt (s : VState) : Nat → Nat
  | 0 => s.node.start_cluster
  | k + 1 => nextCluster s (clusterAt s k)

/-- Byte stored at logical file position `p` of the operated node: the byte
of the device at offset `p % cluster_size` inside the `p / cluster_size`-th
cluster of the node's chain. -/
def fileByte (s : VState) (p : Nat) : Nat :=
  s.disk (c2o s.sb (clusterAt s (p / getClusterSize s.sb)) + p % getClusterSize s.sb)

end LibExfat

namespace LibExfat

/-- Expansion of `bitmap::get` through `testBit`. -/
theorem bitmap_get_eq (b : List Nat) (i : Nat) :
    bitmap.get b i = ((b.getD (i / 8) 0).testBit (i % 8)).toNat * 2 ^ (i % 8) := by
  simp [bitmap.get, bitmap.block, bitmap.mask, bitmap.SIZE_BITS, Nat.shiftLeft_eq,
    Nat.and_two_pow]

/-- A bit is clear exactly when the corresponding element bit tests false. -/
theorem bitmap_get_eq_zero_iff (b : List Nat) (i : Nat) :
    bitmap.get b i = 0 ↔ (b.getD (i / 8) 0).testBit (i % 8) = false := by
  rw [bitmap_get_eq]
  cases h : (b.getD (i / 8) 0).testBit (i % 8) <;> simp [Nat.pow_eq_zero]

/-- C8: for every cluster `c >= 2`,
`c2o(c) = (cluster_sector_start << sector_bits) + ((c-2) << (sector_bits + spc_bits))`,
and `cluster_invalid(c)` holds iff `c < 2` or `c - 2 >= cluster_count`. -/
theorem c2o_cluster_invalid_spec (sb : ExfatSuperBlock) (c : Nat) (h : 2 ≤ c) :
    c2o sb c = (sb.cluster_sector_start <<< sb.sector_bits) +
      ((c - 2) <<< (sb.sector_bits + sb.spc_bits)) ∧
    ∀ x : Nat, clusterInvalid sb x = true ↔ x < 2 ∨ sb.cluster_count ≤ x - 2 := by
  constructor
  · simp only [c2o, s2o, c2s, EXFAT_FIRST_DATA_CLUSTER, Nat.shiftLeft_eq]
    ring
  · intro x
    simp [clusterInvalid, EXFAT_FIRST_DATA_CLUSTER]

/-- Witness for `c2o_cluster_invalid_spec` at cluster 5 of the concrete
super block. -/
theorem c2o_cluster_invalid_spec_witness :
    2 ≤ 5 ∧ (c2o sbW 5 = (sbW.cluster_sector_start <<< sbW.sector_bits) +
      ((5 - 2) <<< (sbW.sector_bits + sbW.spc_bits)) ∧
    ∀ x : Nat, clusterInvalid sbW x = true ↔ x < 2 ∨ sbW.cluster_count ≤ x - 2) :=
  ⟨by norm_num, c2o_cluster_invalid_spec sbW 5 (by norm_num)⟩

/-- C7: the super-block validation of `mount` succeeds exactly when the OEM
name is `EXFAT   `, `sector_bits >= 9`, `sector_bits + spc_bits <= 25`, the
version is 1.0, the FAT count is 1 and the cluster heap fits the device;
every rejection is an I/O error; the sectors-larger-than-device condition
and the MOUNTED state bit do not influence the outcome (warnings only). -/
theorem sb_check_spec (sb : ExfatSuperBlock) (devSize : Nat) :
    (sbCheck sb devSize = .ok () ↔
      (sb.oem_name = OEM_NAME_EXFAT ∧ 9 ≤ sb.sector_bits ∧
       sb.sector_bits + sb.spc_bits ≤ 25 ∧ sb.version_major = 1 ∧ sb.version_minor = 0 ∧
       sb.fat_count = 1 ∧ sb.cluster_count * getClusterSize sb ≤ devSize)) ∧
    (∀ e, sbCheck sb devSize = .error e → e = .eio) ∧
    (∀ vs sc, sbCheck { sb with volume_state := vs, sector_count := sc } devSize =
      sbCheck sb devSize) := by
  refine ⟨?_, ?_, fun vs sc => rfl⟩
  · unfold sbCheck
    split_ifs <;> simp_all
  · intro e
    unfold sbCheck
    split_ifs <;> simp_all

/-- C10: truncating a node to its current size returns success immediately
and leaves the whole volume state (clusters, bitmap, device, node fields,
mtime, dirty flag) unchanged.  The hypothesis is the source's entry
assertion `references != 0 || pnid == NID_INVALID`. -/
theorem truncate_same_size_noop (s : VState) (erase : Bool)
    (h : s.node.references ≠ 0 ∨ s.node.pnid = NID_INVALID) :
    truncate s s.node.size erase = (s, .ok ()) := by
  unfold truncate
  simp [h]

/-- Witness for `truncate_same_size_noop` on the concrete volume state. -/
theorem truncate_same_size_noop_witness :
    (vsW.node.references ≠ 0 ∨ vsW.node.pnid = NID_INVALID) ∧
    truncate vsW vsW.node.size true = (vsW, .ok ()) :=
  ⟨by decide, truncate_same_size_noop vsW true (by decide)⟩

/-- Inner scan of `find_and_set`: over `n` consecutive bits starting at `c`,
it returns the least clear bit, or `none` when all are set. -/
theorem scanFrom_sound (b : List Nat) :
    ∀ (n c : Nat),
      (∀ r, bitmap.scanFrom b c n = some r → leastClear b c (c + n) r) ∧
      (bitmap.scanFrom b c n = none → allSet b c (c + n)) := by
  intro n
  induction n with
  | zero =>
    intro c
    refine ⟨fun r h => by simp [bitmap.scanFrom] at h, fun _ j h1 h2 => ?_⟩
    omega
  | succ n ih =>
    intro c
    by_cases hg : bitmap.get b c = 0
    · refine ⟨fun r h => ?_, fun h => ?_⟩
      · rw [bitmap.scanFrom, if_pos hg] at h
        cases h
        exact ⟨Nat.le_refl c, by omega, hg, fun j h1 h2 => by omega⟩
      · rw [bitmap.scanFrom, if_pos hg] at h
        cases h
    · have hrec := ih (c + 1)
      refine ⟨fun r h => ?_, fun h j h1 h2 => ?_⟩
      · rw [bitmap.scanFrom, if_neg hg] at h
        obtain ⟨q1, q2, q3, q4⟩ := hrec.1 r h
        exact ⟨by omega, by omega, q3, fun j h1 h2 => by
          rcases Nat.eq_or_lt_of_le h1 with he | hl
          · exact he ▸ hg
          · exact q4 j hl h2⟩
      · rw [bitmap.scanFrom, if_neg hg] at h
        rcases Nat.eq_or_lt_of_le h1 with he | hl
        · exact he ▸ hg
        · exact hrec.2 h j hl (by omega)

/-- Bits inside a fully-set (`Bitmap::MAX`) element are all set. -/
theorem get_of_elem_max (b : List Nat) (i j : Nat)
    (hj : j / 8 = i) (he : b.getD i 0 = bitmap.ELEM_MAX) : bitmap.get b j ≠ 0 := by
  rw [bitmap_get_eq, hj, he]
  have h8 : j % 8 < 8 := Nat.mod_lt _ (by norm_num)
  have : (bitmap.ELEM_MAX).testBit (j % 8) = true := by
    have := Nat.testBit_two_pow_sub_one 8 (j % 8)
    simp only [bitmap.ELEM_MAX]
    norm_num at this ⊢
    simpa [h8] using this
  rw [this]
  simp

/-- Outer scan of `find_and_set`: starting at element `i` with enough fuel to
reach the last element covering `stop`, it returns the least clear bit of
`[max (i * 8) start, stop)`, or `none` when that range is fully set. -/
theorem scanBlocks_sound (b : List Nat) (start stop : Nat) :
    ∀ (n i : Nat), divRoundUp stop 8 ≤ i + n →
      (∀ r, bitmap.scanBlocks b start stop i n = some r →
        leastClear b (max (i * 8) start) stop r) ∧
      (bitmap.scanBlocks b start stop i n = none →
        allSet b (max (i * 8) start) stop) := by
  intro n
  induction n with
  | zero =>
    intro i hfuel
    have hstop : stop ≤ i * 8 := by
      simp only [divRoundUp] at hfuel
      omega
    refine ⟨fun r h => by simp [bitmap.scanBlocks] at h, fun _ j h1 h2 => ?_⟩
    have : i * 8 ≤ j := le_trans (Nat.le_max_left _ _) h1
    omega
  | succ n ih =>
    intro i hfuel
    have hrec := ih (i + 1) (by omega)
    -- facts about the skipped sub-range [max (i*8) start, max ((i+1)*8) start)
    have hcover : ∀ j, max (i * 8) start ≤ j → j < max ((i + 1) * 8) start →
        j / 8 = i ∧ start ≤ j := by
      intro j h1 h2
      omega
    by_cases hmax : b.getD i 0 = bitmap.ELEM_MAX
    · -- fully-set element: skipped in constant time
      have hskip : ∀ j, max (i * 8) start ≤ j → j < max ((i + 1) * 8) start →
          bitmap.get b j ≠ 0 := by
        intro j h1 h2
        obtain ⟨hj, _⟩ := hcover j h1 h2
        exact get_of_elem_max b i j hj hmax
      refine ⟨fun r h => ?_, fun h j h1 h2 => ?_⟩
      · rw [bitmap.scanBlocks, if_pos hmax] at h
        obtain ⟨q1, q2, q3, q4⟩ := hrec.1 r h
        refine ⟨?_, q2, q3, fun j h1 h2 => ?_⟩
        · exact le_trans (Nat.max_le.mpr ⟨by omega, Nat.le_max_right _ _⟩) q1
        · by_cases hj : j < max ((i + 1) * 8) start
          · exact hskip j h1 hj
          · exact q4 j (by omega) h2
      · rw [bitmap.scanBlocks, if_pos hmax] at h
        by_cases hj : j < max ((i + 1) * 8) start
        · exact hskip j h1 hj
        · exact hrec.2 h j (by omega) h2
    · -- scan the bits of element i that lie in [start, stop)
      have hin := scanFrom_sound b
        (min ((i + 1) * 8) stop - max (i * 8) start) (max (i * 8) start)
      refine ⟨fun r h => ?_, fun h j h1 h2 => ?_⟩
      · rw [bitmap.scanBlocks, if_neg hmax] at h
        simp only [bitmap.SIZE_BITS] at h
        cases hscan : bitmap.scanFrom b (max (i * 8) start)
            (min ((i + 1) * 8) stop - max (i * 8) start) with
        | some c =>
          rw [hscan] at h
          cases h
          obtain ⟨q1, q2, q3, q4⟩ := hin.1 r hscan
          refine ⟨q1, by omega, q3, fun j h1 h2 => q4 j h1 h2⟩
        | none =>
          rw [hscan] at h
          have hall := hin.2 hscan
          obtain ⟨q1, q2, q3, q4⟩ := hrec.1 r h
          refine ⟨?_, q2, q3, fun j h1 h2 => ?_⟩
          · exact le_trans (Nat.max_le.mpr ⟨by omega, Nat.le_max_right _ _⟩) q1
          · by_cases hj : j < max ((i + 1) * 8) start
            · refine hall j h1 ?_
              have hjs : start ≤ j := (hcover j h1 hj).2
              have hji : j / 8 = i := (hcover j h1 hj).1
              have : j < stop := by omega
              omega
            · exact q4 j (by omega) h2
      · rw [bitmap.scanBlocks, if_neg hmax] at h
        simp only [bitmap.SIZE_BITS] at h
        cases hscan : bitmap.scanFrom b (max (i * 8) start)
            (min ((i + 1) * 8) stop - max (i * 8) start) with
        | some c => rw [hscan] at h; cases h
        | none =>
          rw [hscan] at h
          have hall := hin.2 hscan
          by_cases hj : j < max ((i + 1) * 8) start
          · refine hall j h1 ?_
            have hjs : start ≤ j := (hcover j h1 hj).2
            have hji : j / 8 = i := (hcover j h1 hj).1
            omega
          · exact hrec.2 h j (by omega) h2

/-- Case analysis of `bitmap::find_and_set`: either the range is fully set,
the sentinel is returned and the bitmap is untouched, or the least clear bit
of the range is returned with exactly that bit newly set. -/
theorem find_and_set_cases (b : List Nat) (start stop : Nat) :
    ((bitmap.find_and_set b start stop).fst = bitmap.USIZE_MAX ∧
      (bitmap.find_and_set b start stop).snd = b ∧ allSet b start stop) ∨
    (leastClear b start stop (bitmap.find_and_set b start stop).fst ∧
      (bitmap.find_and_set b start stop).snd =
        bitmap.bset b (bitmap.find_and_set b start stop).fst) := by
  have hsound := scanBlocks_sound b start stop
    (divRoundUp stop 8 - start / 8) (start / 8) (by omega)
  have hm : max ((start / 8) * 8) start = start :=
    Nat.max_eq_right (Nat.div_mul_le_self start 8)
  unfold bitmap.find_and_set
  simp only [bitmap.SIZE_BITS]
  cases hscan : bitmap.scanBlocks b start stop (start / 8)
      (divRoundUp stop 8 - start / 8) with
  | none =>
    left
    have hall := hsound.2 hscan
    rw [hm] at hall
    exact ⟨rfl, rfl, hall⟩
  | some c =>
    right
    have hl := hsound.1 c hscan
    rw [hm] at hl
    exact ⟨hl, rfl⟩

/-- Setting bit `i` of an in-range index makes `get` non-zero. -/
theorem get_bset_self (b : List Nat) (i : Nat) (h : i < 8 * b.length) :
    bitmap.get (bitmap.bset b i) i ≠ 0 := by
  have hb : i / 8 < b.length := by omega
  rw [bitmap_get_eq]
  have hset : (bitmap.bset b i).getD (i / 8) 0 =
      b.getD (i / 8) 0 ||| bitmap.mask i := by
    simp [bitmap.bset, bitmap.block, bitmap.SIZE_BITS, List.getD,
      List.getElem?_set_self, hb]
  rw [hset]
  have hmask : bitmap.mask i = 2 ^ (i % 8) := by
    simp [bitmap.mask, bitmap.SIZE_BITS, Nat.shiftLeft_eq]
  rw [hmask, Nat.testBit_or, Nat.testBit_two_pow_self]
  simp

/-- C3: over `[start, end)` with `end` within the allocated bits,
`find_and_set` returns the sentinel `usize::MAX` exactly when every bit of
the range is set; otherwise it returns the smallest clear index of the
range and sets that bit. -/
theorem find_and_set_spec (b : List Nat) (start stop : Nat)
    (h1 : start ≤ stop) (h2 : stop ≤ 8 * b.length) (h3 : stop < bitmap.USIZE_MAX) :
    ((bitmap.find_and_set b start stop).fst = bitmap.USIZE_MAX ↔
      allSet b start stop) ∧
    ((bitmap.find_and_set b start stop).fst ≠ bitmap.USIZE_MAX →
      leastClear b start stop (bitmap.find_and_set b start stop).fst ∧
      bitmap.get (bitmap.find_and_set b start stop).snd
        (bitmap.find_and_set b start stop).fst ≠ 0) := by
  rcases find_and_set_cases b start stop with ⟨q1, _, q3⟩ | ⟨q1, q2⟩
  · exact ⟨⟨fun _ => q3, fun _ => q1⟩, fun hne => absurd q1 hne⟩
  · obtain ⟨p1, p2, p3, p4⟩ := q1
    constructor
    · constructor
      · intro hs
        exact absurd (hs ▸ p3) (by omega)
      · intro hall
        exact absurd p3 (hall _ p1 p2)
    · intro _
      exact ⟨⟨p1, p2, p3, p4⟩, q2 ▸ get_bset_self b _ (by omega)⟩

/-- Witness for `find_and_set_spec`: the byte `0b10` with range `[0, 8)`. -/
theorem find_and_set_spec_witness :
    ((0 : Nat) ≤ 8 ∧ 8 ≤ 8 * [2].length ∧ 8 < bitmap.USIZE_MAX) ∧
    (((bitmap.find_and_set [2] 0 8).fst = bitmap.USIZE_MAX ↔ allSet [2] 0 8) ∧
    ((bitmap.find_and_set [2] 0 8).fst ≠ bitmap.USIZE_MAX →
      leastClear [2] 0 8 (bitmap.find_and_set [2] 0 8).fst ∧
      bitmap.get (bitmap.find_and_set [2] 0 8).snd
        (bitmap.find_and_set [2] 0 8).fst ≠ 0)) :=
  ⟨⟨by norm_num, by norm_num, by norm_num [bitmap.USIZE_MAX]⟩,
    find_and_set_spec [2] 0 8 (by norm_num) (by norm_num)
      (by norm_num [bitmap.USIZE_MAX])⟩

/-- Normalised hint never exceeds the tracked bit count. -/
theorem normHint_le (s : VState) (hint : Nat) : normHint s hint ≤ s.cmapChunkSize := by
  unfold normHint
  split_ifs <;> omega

/-- Unfolding of `ffas` when the scan failed. -/
theorem ffas_eq_error (b : List Nat) (start stop : Nat)
    (h : (bitmap.find_and_set b start stop).fst = bitmap.USIZE_MAX) :
    ffas b start stop = (.error .enospc, (bitmap.find_and_set b start stop).snd) := by
  simp [ffas, h]

/-- Unfolding of `ffas` when the scan found a clear bit. -/
theorem ffas_eq_ok (b : List Nat) (start stop : Nat)
    (h : (bitmap.find_and_set b start stop).fst ≠ bitmap.USIZE_MAX) :
    ffas b start stop =
      (.ok (EXFAT_FIRST_DATA_CLUSTER + (bitmap.find_and_set b start stop).fst),
        (bitmap.find_and_set b start stop).snd) := by
  simp [ffas, h]

/-- C4: `allocate_cluster(hint)` returns `ENOSPC` exactly when every tracked
bit is set; on success it returns `FIRST_DATA_CLUSTER + i` where `i` is the
clear bit it found and set — the least clear bit at or after the normalised
hint, or, when everything from the hint on is taken, the least clear bit
before it — and it marks the bitmap dirty. -/
theorem allocate_cluster_spec (s : VState) (hint : Nat)
    (h2 : s.cmapChunkSize ≤ 8 * s.cmapChunk.length)
    (h3 : s.cmapChunkSize < U32_MAX) :
    ((allocateCluster s hint).snd = .error .enospc ↔
      ∀ i, i < s.cmapChunkSize → bitmap.get s.cmapChunk i ≠ 0) ∧
    (∀ s' c, allocateCluster s hint = (s', .ok c) →
      EXFAT_FIRST_DATA_CLUSTER ≤ c ∧
      c - EXFAT_FIRST_DATA_CLUSTER < s.cmapChunkSize ∧
      s'.cmapDirty = true ∧
      s'.cmapChunk = bitmap.bset s.cmapChunk (c - EXFAT_FIRST_DATA_CLUSTER) ∧
      bitmap.get s'.cmapChunk (c - EXFAT_FIRST_DATA_CLUSTER) ≠ 0 ∧
      (leastClear s.cmapChunk (normHint s hint) s.cmapChunkSize
          (c - EXFAT_FIRST_DATA_CLUSTER) ∨
        (allSet s.cmapChunk (normHint s hint) s.cmapChunkSize ∧
         leastClear s.cmapChunk 0 (normHint s hint) (c - EXFAT_FIRST_DATA_CLUSTER)))) := by
  have hle : normHint s hint ≤ s.cmapChunkSize := normHint_le s hint
  have hF1 := find_and_set_cases s.cmapChunk (normHint s hint) s.cmapChunkSize
  have hF2 := find_and_set_cases s.cmapChunk 0 (normHint s hint)
  rcases hF1 with ⟨e1, e2, e3⟩ | ⟨⟨l1, l2, l3, l4⟩, lb⟩
  · -- everything from the hint on is taken
    rcases hF2 with ⟨f1, f2, f3⟩ | ⟨⟨m1, m2, m3, m4⟩, mb⟩
    · -- and everything before the hint as well: ENOSPC
      have halloc : allocateCluster s hint = (s, .error .enospc) := by
        simp [allocateCluster, ffas_eq_error _ _ _ e1, ffas_eq_error _ _ _ f1]
      rw [halloc]
      constructor
      · constructor
        · intro _ i hi
          by_cases hcase : normHint s hint ≤ i
          · exact e3 i hcase hi
          · exact f3 i (Nat.zero_le i) (by omega)
        · intro _; rfl
      · intro s' c h
        simp at h
    · -- a clear bit exists before the hint
      have hne : (bitmap.find_and_set s.cmapChunk 0 (normHint s hint)).fst ≠
          bitmap.USIZE_MAX := by
        have hA : bitmap.USIZE_MAX = 2 ^ 64 - 1 := rfl
        have hB : U32_MAX = 2 ^ 32 - 1 := rfl
        omega
      have halloc : allocateCluster s hint =
          Prod.mk
            { s with cmapChunk := (bitmap.find_and_set s.cmapChunk 0 (normHint s hint)).snd
                     cmapDirty := true }
            (.ok (EXFAT_FIRST_DATA_CLUSTER +
              (bitmap.find_and_set s.cmapChunk 0 (normHint s hint)).fst)) := by
        simp [allocateCluster, ffas_eq_error _ _ _ e1, ffas_eq_ok _ _ _ hne]
      rw [halloc]
      constructor
      · constructor
        · intro h; simp at h
        · intro hall
          exact absurd m3 (hall _ (by omega))
      · intro s' c h
        injection h with hs hc
        subst hs
        have hcc : c = EXFAT_FIRST_DATA_CLUSTER +
            (bitmap.find_and_set s.cmapChunk 0 (normHint s hint)).fst :=
          (Except.ok.inj hc).symm
        have hidx : c - EXFAT_FIRST_DATA_CLUSTER =
            (bitmap.find_and_set s.cmapChunk 0 (normHint s hint)).fst := by
          rw [hcc]; omega
        refine ⟨by omega, by omega, rfl, by rw [hidx]; exact mb, ?_, ?_⟩
        · show bitmap.get (bitmap.find_and_set s.cmapChunk 0 (normHint s hint)).snd
            (c - EXFAT_FIRST_DATA_CLUSTER) ≠ 0
          rw [hidx, mb]
          exact get_bset_self _ _ (by omega)
        · right
          exact ⟨e3, hidx ▸ ⟨m1, m2, m3, m4⟩⟩
  · -- a clear bit exists at or after the hint
    have hne : (bitmap.find_and_set s.cmapChunk (normHint s hint)
        s.cmapChunkSize).fst ≠ bitmap.USIZE_MAX := by
      have hA : bitmap.USIZE_MAX = 2 ^ 64 - 1 := rfl
      have hB : U32_MAX = 2 ^ 32 - 1 := rfl
      omega
    have halloc : allocateCluster s hint =
        Prod.mk
          { s with cmapChunk :=
              (bitmap.find_and_set s.cmapChunk (normHint s hint) s.cmapChunkSize).snd
                   cmapDirty := true }
          (.ok (EXFAT_FIRST_DATA_CLUSTER +
            (bitmap.find_and_set s.cmapChunk (normHint s hint) s.cmapChunkSize).fst)) := by
      simp [allocateCluster, ffas_eq_ok _ _ _ hne]
    rw [halloc]
    constructor
    · constructor
      · intro h; simp at h
      · intro hall
        exact absurd l3 (hall _ l2)
    · intro s' c h
      injection h with hs hc
      subst hs
      have hcc : c = EXFAT_FIRST_DATA_CLUSTER +
          (bitmap.find_and_set s.cmapChunk (normHint s hint) s.cmapChunkSize).fst :=
        (Except.ok.inj hc).symm
      have hidx : c - EXFAT_FIRST_DATA_CLUSTER =
          (bitmap.find_and_set s.cmapChunk (normHint s hint) s.cmapChunkSize).fst := by
        rw [hcc]; omega
      refine ⟨by omega, by omega, rfl, by rw [hidx]; exact lb, ?_, ?_⟩
      · show bitmap.get
          (bitmap.find_and_set s.cmapChunk (normHint s hint) s.cmapChunkSize).snd
          (c - EXFAT_FIRST_DATA_CLUSTER) ≠ 0
        rw [hidx, lb]
        exact get_bset_self _ _ (by omega)
      · left
        exact hidx ▸ ⟨l1, l2, l3, l4⟩

/-- Witness for `allocate_cluster_spec` on the concrete volume state with
hint 0. -/
theorem allocate_cluster_spec_witness :
    (vsW.cmapChunkSize ≤ 8 * vsW.cmapChunk.length ∧ vsW.cmapChunkSize < U32_MAX) ∧
    (((allocateCluster vsW 0).snd = .error .enospc ↔
      ∀ i, i < vsW.cmapChunkSize → bitmap.get vsW.cmapChunk i ≠ 0) ∧
    (∀ s' c, allocateCluster vsW 0 = (s', .ok c) →
      EXFAT_FIRST_DATA_CLUSTER ≤ c ∧
      c - EXFAT_FIRST_DATA_CLUSTER < vsW.cmapChunkSize ∧
      s'.cmapDirty = true ∧
      s'.cmapChunk = bitmap.bset vsW.cmapChunk (c - EXFAT_FIRST_DATA_CLUSTER) ∧
      bitmap.get s'.cmapChunk (c - EXFAT_FIRST_DATA_CLUSTER) ≠ 0 ∧
      (leastClear vsW.cmapChunk (normHint vsW 0) vsW.cmapChunkSize
          (c - EXFAT_FIRST_DATA_CLUSTER) ∨
        (allSet vsW.cmapChunk (normHint vsW 0) vsW.cmapChunkSize ∧
         leastClear vsW.cmapChunk 0 (normHint vsW 0) (c - EXFAT_FIRST_DATA_CLUSTER))))) :=
  ⟨⟨by decide, by norm_num [U32_MAX, vsW, sbW]⟩,
    allocate_cluster_spec vsW 0 (by decide) (by norm_num [U32_MAX, vsW, sbW])⟩

/-- `set_next_cluster` leaves the `errors` counter unchanged. -/
theorem setNextCluster_errors (s : VState) (ct : Bool) (c n : Nat) :
    (setNextCluster s ct c n).errors = s.errors := by
  unfold setNextCluster
  split <;> rfl

/-- `make_noncontiguous` leaves the `errors` counter unchanged. -/
theorem makeNoncontiguous_errors :
    ∀ (n first : Nat) (s : VState), (makeNoncontiguous s first n).errors = s.errors := by
  intro n
  induction n with
  | zero => intro first s; rfl
  | succ n ih =>
    intro first s
    rw [makeNoncontiguous, ih]
    exact setNextCluster_errors s false first (first + 1)

/-- The `advance_cluster` loop leaves the `errors` counter unchanged. -/
theorem advanceLoop_errors (count : Nat) :
    ∀ (n : Nat) (s : VState), ((advanceLoop count n s).fst).errors = s.errors := by
  intro n
  induction n with
  | zero => intro s; rfl
  | succ n ih =>
    intro s
    rw [advanceLoop]
    split
    · rfl
    · rw [ih]

/-- `advance_cluster` leaves the `errors` counter unchanged. -/
theorem advanceCluster_errors (s : VState) (count : Nat) :
    ((advanceCluster s count).fst).errors = s.errors := by
  unfold advanceCluster
  split <;> rw [advanceLoop_errors]

/-- `allocate_cluster` leaves the `errors` counter unchanged. -/
theorem allocateCluster_errors (s : VState) (hint : Nat) :
    ((allocateCluster s hint).fst).errors = s.errors := by
  unfold allocateCluster
  cases hf1 : ffas s.cmapChunk (normHint s hint) s.cmapChunkSize with
  | mk r1 bm1 =>
    cases r1 with
    | ok c => simp [hf1]
    | error e =>
      cases hf2 : ffas s.cmapChunk 0 (normHint s hint) with
      | mk r2 bm2 => cases r2 <;> simp [hf1, hf2]

/-- The `shrink_file` free loop leaves the `errors` counter unchanged. -/
theorem shrinkFreeLoop_errors :
    ∀ (n : Nat) (s : VState) (previous : Nat),
      ((shrinkFreeLoop n s previous).fst).errors = s.errors := by
  intro n
  induction n with
  | zero => intro s previous; rfl
  | succ n ih =>
    intro s previous
    rw [shrinkFreeLoop]
    split
    · rfl
    · rw [ih]
      rw [show ∀ t : VState, (freeCluster t previous).errors = t.errors from fun _ => rfl]
      exact setNextCluster_errors _ _ _ _

/-- `shrink_file` leaves the `errors` counter unchanged. -/
theorem shrinkFile_errors (s : VState) (current difference : Nat) :
    ((shrinkFile s current difference).fst).errors = s.errors := by
  unfold shrinkFile
  split
  · rfl
  split
  · rfl
  split
  · rfl
  by_cases hgt : current > difference
  · rw [if_pos hgt]
    cases hadv : advanceCluster s (current - difference - 1) with
    | mk s1 r =>
      have herr : s1.errors = s.errors := by
        have := advanceCluster_errors s (current - difference - 1)
        rw [hadv] at this
        exact this
      cases r with
      | error e => simp [hadv, herr]
      | ok last =>
        simp [hadv, shrinkFreeLoop_errors, setNextCluster_errors, herr]
  · rw [if_neg hgt]
    simp [shrinkFreeLoop_errors]

/-- The `grow_file` allocation loop leaves the `errors` counter unchanged. -/
theorem growLoop_errors :
    ∀ (fuel : Nat) (s : VState) (previous current difference allocated : Nat),
      ((growLoop fuel s previous current difference allocated).fst).errors = s.errors := by
  intro fuel
  induction fuel with
  | zero =>
    intro s previous current difference allocated
    rw [growLoop]
    exact setNextCluster_errors _ _ _ _
  | succ fuel ih =>
    intro s previous current difference allocated
    rw [growLoop]
    split
    · rcases halloc : allocateCluster s (previous + 1) with ⟨s1, e | next⟩
      · have herr : s1.errors = s.errors := by
          have := allocateCluster_errors s (previous + 1)
          rw [halloc] at this
          exact this
        dsimp only
        split
        · rw [shrinkFile_errors]
          exact herr
        · exact herr
      · have herr : s1.errors = s.errors := by
          have := allocateCluster_errors s (previous + 1)
          rw [halloc] at this
          exact this
        dsimp only
        rw [ih]
        split
        · rw [setNextCluster_errors]
          simp [makeNoncontiguous_errors, herr]
        · rw [setNextCluster_errors]
          exact herr
    · exact setNextCluster_errors _ _ _ _

/-- `grow_file` leaves the `errors` counter unchanged. -/
theorem growFile_errors (s : VState) (current difference : Nat) :
    ((growFile s current difference).fst).errors = s.errors := by
  unfold growFile
  split
  · rfl
  · split
    · cases hadv : advanceCluster s (current - 1) with
      | mk s1 r =>
        have herr : s1.errors = s.errors := by
          have := advanceCluster_errors s (current - 1)
          rw [hadv] at this
          exact this
        cases r with
        | error e => exact herr
        | ok previous => rw [growLoop_errors]; exact herr
    · cases halloc : allocateCluster s 0 with
      | mk s1 r =>
        have herr : s1.errors = s.errors := by
          have := allocateCluster_errors s 0
          rw [halloc] at this
          exact this
        cases r with
        | error e => exact herr
        | ok previous => rw [growLoop_errors]; exact herr

/-- The whole-cluster erase loop leaves the `errors` counter unchanged. -/
theorem eraseClustersLoop_errors (stop : Nat) :
    ∀ (fuel : Nat) (s : VState) (cluster boundary : Nat),
      ((eraseClustersLoop stop fuel s cluster boundary).fst).errors = s.errors := by
  intro fuel
  induction fuel with
  | zero => intro s cluster boundary; rfl
  | succ fuel ih =>
    intro s cluster boundary
    rw [eraseClustersLoop]
    split
    · dsimp only
      split
      · rfl
      · rw [ih]; rfl
    · rfl

/-- `erase_range` leaves the `errors` counter unchanged. -/
theorem eraseRange_errors (s : VState) (start stop : Nat) :
    ((eraseRange s start stop).fst).errors = s.errors := by
  unfold eraseRange
  split
  · rfl
  · dsimp only
    split
    · rfl
    · cases hadv : advanceCluster s (start / getClusterSize s.sb) with
      | mk s1 r =>
        have herr : s1.errors = s.errors := by
          have := advanceCluster_errors s (start / getClusterSize s.sb)
          rw [hadv] at this
          exact this
        cases r with
        | error e => exact herr
        | ok cluster => rw [eraseClustersLoop_errors]; exact herr

/-- The cluster-read path of `pread` leaves the `errors` counter unchanged. -/
theorem preadData_errors (s : VState) (buf : List Nat) (offset : Nat) :
    ((preadData s buf offset).fst).errors = s.errors := by
  unfold preadData
  dsimp only
  split
  · rfl
  · rcases hadv : advanceCluster s (offset / getClusterSize s.sb) with ⟨s1, e | cluster⟩
    all_goals
      have herr : s1.errors = s.errors := by
        have := advanceCluster_errors s (offset / getClusterSize s.sb)
        rw [hadv] at this
        exact this
    · dsimp only
      exact herr
    · dsimp only
      split
      · exact herr
      · split
        · simp [herr]
        · exact herr

/-- `pread` leaves the `errors` counter unchanged. -/
theorem pread_errors (s : VState) (buf : List Nat) (offset : Nat) :
    ((pread s buf offset).fst).errors = s.errors := by
  unfold pread
  dsimp only
  split
  · rfl
  split
  · split
    · rcases hp : preadData s (buf.take (s.node.valid_size - offset)) offset with
        ⟨s1, e | ⟨bytes, pre⟩⟩
      all_goals
        have herr : s1.errors = s.errors := by
          have := preadData_errors s (buf.take (s.node.valid_size - offset)) offset
          rw [hp] at this
          exact this
      · dsimp only
        exact herr
      · dsimp only
        split
        · exact herr
        · exact herr
    · rfl
  · exact preadData_errors s buf offset

/-- `truncate` leaves the `errors` counter unchanged. -/
theorem truncate_errors (s : VState) (size : Nat) (erase : Bool) :
    ((truncate s size erase).fst).errors = s.errors := by
  unfold truncate
  split
  · rfl
  split
  · rfl
  rcases hb1 : bytes2clusters s s.node.size with e | c1
  · rfl
  rcases hb2 : bytes2clusters s size with e | c2
  · rfl
  dsimp only
  rcases hs : (if c1 < c2 then growFile s c1 (c2 - c1)
      else if c2 < c1 then shrinkFile s c1 (c1 - c2)
      else (s, Except.ok ())) with ⟨s1, es | u⟩
  all_goals
    have herr : s1.errors = s.errors := by
      have h1 : s1 = (if c1 < c2 then growFile s c1 (c2 - c1)
          else if c2 < c1 then shrinkFile s c1 (c1 - c2)
          else (s, Except.ok ())).fst := by rw [hs]
      rw [h1]
      split
      · exact growFile_errors s c1 (c2 - c1)
      split
      · exact shrinkFile_errors s c1 (c1 - c2)
      · rfl
  · dsimp only
    exact herr
  · dsimp only
    split <;>
    · rename_i x s2 e2 heq
      have hfst := congrArg Prod.fst heq
      dsimp only at hfst ⊢
      rw [← hfst]
      clear hfst heq
      split
      · rcases her : eraseRange s1 s1.node.valid_size size with ⟨s3, ee | u3⟩
        all_goals
          have herr2 : s3.errors = s1.errors := by
            have := eraseRange_errors s1 s1.node.valid_size size
            rw [her] at this
            exact this
        · dsimp only
          rw [herr2, herr]
        · dsimp only
          rw [herr2, herr]
      · dsimp only
        rw [herr]

/-- Every engine operation preserves the `errors` counter. -/
theorem engineStep_errors (s t : VState) (h : EngineStep s t) : t.errors = s.errors := by
  cases h with
  | truncate n e => exact truncate_errors s n e
  | growFile c d => exact growFile_errors s c d
  | shrinkFile c d => exact shrinkFile_errors s c d
  | allocateCluster hh => exact allocateCluster_errors s hh
  | freeCluster c => rfl
  | advanceCluster c => exact advanceCluster_errors s c
  | setNextCluster ct c n => exact setNextCluster_errors s ct c n
  | pread b o => exact pread_errors s b o
  | eraseRange a b => exact eraseRange_errors s a b
  | countErrorsFixed => rfl

/-- C9: in every state reachable from a fresh mount, `get_errors()` returns
0 — no engine operation ever increments the `errors` counter (repairs bump
only `errors_fixed`). -/
theorem get_errors_always_zero (s : VState) (h : ReachableSt s) : getErrors s = 0 := by
  induction h with
  | fresh s h0 => exact h0
  | step s t hs st ih => rw [getErrors, engineStep_errors s t st]; exact ih

/-- Witness for `get_errors_always_zero`: a state reached from the concrete
fresh volume through a truncate step. -/
theorem get_errors_always_zero_witness :
    ReachableSt (truncate vsW 0 false).fst ∧ getErrors (truncate vsW 0 false).fst = 0 := by
  have hr : ReachableSt (truncate vsW 0 false).fst :=
    ReachableSt.step vsW _ (ReachableSt.fresh vsW (by decide))
      (EngineStep.truncate vsW 0 false)
  exact ⟨hr, get_errors_always_zero _ hr⟩

/-- C5: when `allocate_cluster` fails inside the `grow_file` loop after at
least one cluster has already been appended, the loop shrinks exactly the
appended clusters back off the file (`shrink_file(current + allocated,
allocated)`), keeps whatever state that best-effort rollback produced
whether it succeeded or not, and returns the original allocation error. -/
theorem grow_loop_rollback (s s1 : VState) (e : Err)
    (fuel previous current difference allocated : Nat)
    (h1 : allocated < difference) (h2 : allocated ≠ 0)
    (h3 : allocateCluster s (previous + 1) = (s1, .error e)) :
    growLoop (fuel + 1) s previous current difference allocated =
      ((shrinkFile s1 (current + allocated) allocated).fst, .error e) := by
  rw [growLoop, if_pos h1, h3]
  simp [h2]

/-- Witness for `grow_loop_rollback`: on the exhausted bitmap every
allocation fails with `ENOSPC`, and the loop entered with one appended
cluster returns that error around the rollback state. -/
theorem grow_loop_rollback_witness :
    (1 < 2 ∧ (1 : Nat) ≠ 0 ∧ allocateCluster vsFull 3 = (vsFull, .error .enospc)) ∧
    growLoop 1 vsFull 2 1 2 1 = ((shrinkFile vsFull 2 1).fst, .error .enospc) :=
  ⟨⟨by norm_num, by norm_num, rfl⟩,
    grow_loop_rollback vsFull vsFull .enospc 0 2 1 2 1 (by norm_num) (by norm_num) rfl⟩

/-- The cluster size is positive (it is a power of two). -/
theorem getClusterSize_pos (sb : ExfatSuperBlock) : 0 < getClusterSize sb := by
  simp [getClusterSize, getSectorSize, Nat.shiftLeft_eq]

/-- Zero bytes round up to zero clusters. -/
theorem bytes2clusters_zero (s : VState) : bytes2clusters s 0 = .ok 0 := by
  have hcs := getClusterSize_pos s.sb
  have hz : divRoundUp 0 (getClusterSize s.sb) = 0 := by
    unfold divRoundUp
    rw [Nat.zero_add]
    exact Nat.div_eq_of_lt (by omega)
  simp [bytes2clusters, hz, U32_MAX]

/-- A zero cluster count means a zero byte size. -/
theorem bytes2clusters_eq_zero (s : VState) (bytes : Nat)
    (h : bytes2clusters s bytes = .ok 0) : bytes = 0 := by
  have hcs := getClusterSize_pos s.sb
  unfold bytes2clusters at h
  dsimp only at h
  split at h
  · have h0 := Except.ok.inj h
    unfold divRoundUp at h0
    have hlt := (Nat.div_eq_zero_iff hcs).mp h0
    omega
  · cases h

/-- The free loop of `shrink_file` never touches the node. -/
theorem shrinkFreeLoop_node :
    ∀ (n : Nat) (s : VState) (previous : Nat),
      ((shrinkFreeLoop n s previous).fst).node = s.node := by
  intro n
  induction n with
  | zero => intro s previous; rfl
  | succ n ih =>
    intro s previous
    rw [shrinkFreeLoop]
    split
    · rfl
    · rw [ih]
      rw [show ∀ t : VState, (freeCluster t previous).node = t.node from fun _ => rfl]
      unfold setNextCluster
      split <;> rfl

/-- Shrinking a file to zero clusters (`current = difference`) clears its
start cluster, whatever the outcome of the subsequent free loop. -/
theorem shrinkFile_start_free (s : VState) (current difference : Nat)
    (hd : difference ≠ 0) (hs : s.node.start_cluster ≠ EXFAT_CLUSTER_FREE)
    (hcd : current = difference) :
    ((shrinkFile s current difference).fst).node.start_cluster = EXFAT_CLUSTER_FREE := by
  unfold shrinkFile
  rw [if_neg hd, if_neg hs, if_neg (by omega : ¬ current < difference),
    if_neg (by omega : ¬ current > difference)]
  dsimp only
  rw [shrinkFreeLoop_node]

/-- The `advance_cluster` loop only moves the seek hint. -/
theorem advanceLoop_node_start (count : Nat) :
    ∀ (n : Nat) (s : VState),
      ((advanceLoop count n s).fst).node.start_cluster = s.node.start_cluster := by
  intro n
  induction n with
  | zero => intro s; rfl
  | succ n ih =>
    intro s
    rw [advanceLoop]
    split
    · rfl
    · rw [ih]

/-- `advance_cluster` only moves the seek hint. -/
theorem advanceCluster_node_start (s : VState) (count : Nat) :
    ((advanceCluster s count).fst).node.start_cluster = s.node.start_cluster := by
  unfold advanceCluster
  split <;> rw [advanceLoop_node_start]

/-- The whole-cluster erase loop never touches the node. -/
theorem eraseClustersLoop_node (stop : Nat) :
    ∀ (fuel : Nat) (s : VState) (cluster boundary : Nat),
      ((eraseClustersLoop stop fuel s cluster boundary).fst).node = s.node := by
  intro fuel
  induction fuel with
  | zero => intro s cluster boundary; rfl
  | succ fuel ih =>
    intro s cluster boundary
    rw [eraseClustersLoop]
    split
    · dsimp only
      split
      · rfl
      · rw [ih]; rfl
    · rfl

/-- `erase_range` preserves the node's start cluster. -/
theorem eraseRange_node_start (s : VState) (start stop : Nat) :
    ((eraseRange s start stop).fst).node.start_cluster = s.node.start_cluster := by
  unfold eraseRange
  split
  · rfl
  · dsimp only
    split
    · rfl
    · rcases hadv : advanceCluster s (start / getClusterSize s.sb) with ⟨s1, e | cluster⟩
      all_goals
        have hst : s1.node.start_cluster = s.node.start_cluster := by
          have := advanceCluster_node_start s (start / getClusterSize s.sb)
          rw [hadv] at this
          exact this
      · dsimp only
        exact hst
      · dsimp only
        rw [eraseClustersLoop_node]
        exact hst

/-- C1 counterexample: the claim as stated is false on the code.  A
contiguous single-cluster file (`vsW`) satisfies the claim's hypotheses
(positive reference count, `valid_size <= size`), `truncate(n, 0, false)`
succeeds and clears `start_cluster`, but `is_contiguous` remains `true`:
neither `truncate` nor `shrink_file` ever resets the contiguous flag (it is
masked out only when an empty node is later flushed to disk). -/
theorem truncate_zero_keeps_contiguous_cex :
    0 < vsW.node.references ∧ vsW.node.valid_size ≤ vsW.node.size ∧
    (truncate vsW 0 false).snd = .ok () ∧
    ((truncate vsW 0 false).fst).node.start_cluster = EXFAT_CLUSTER_FREE ∧
    ((truncate vsW 0 false).fst).node.is_contiguous = true := by
  refine ⟨by decide, by decide, rfl, rfl, rfl⟩

/-- C1 (amended): for a node with a positive reference count,
`valid_size <= size`, and the size-zero start-cluster invariant, a
successful `truncate(n, S, erase)` establishes `size = S`,
`valid_size <= S`, and `S = 0` implies `start_cluster = FREE` (the claim's
`is_contiguous = false` conjunct is dropped: the flag is left unchanged by
the shrink path, see the counterexample). -/
theorem truncate_spec (s : VState) (S : Nat) (erase : Bool)
    (href : 0 < s.node.references)
    (hvs : s.node.valid_size ≤ s.node.size)
    (hstart : s.node.size = 0 → s.node.start_cluster = EXFAT_CLUSTER_FREE)
    (hok : (truncate s S erase).snd = .ok ()) :
    ((truncate s S erase).fst).node.size = S ∧
    ((truncate s S erase).fst).node.valid_size ≤ S ∧
    (S = 0 → ((truncate s S erase).fst).node.start_cluster = EXFAT_CLUSTER_FREE) := by
  have hassert : ¬¬(s.node.references ≠ 0 ∨ s.node.pnid = NID_INVALID) := by
    intro hcon
    exact hcon (Or.inl (by omega))
  unfold truncate at hok ⊢
  rw [if_neg hassert] at hok ⊢
  by_cases hsz : s.node.size = S
  · rw [if_pos hsz] at hok ⊢
    dsimp only
    exact ⟨hsz, by omega, fun h0 => hstart (by omega)⟩
  · rw [if_neg hsz] at hok ⊢
    generalize hb1 : bytes2clusters s s.node.size = r1 at hok ⊢
    cases r1 with
    | error e1 => simp at hok
    | ok c1 =>
    dsimp only at hok ⊢
    generalize hb2 : bytes2clusters s S = r2 at hok ⊢
    cases r2 with
    | error e2 => simp at hok
    | ok c2 =>
    dsimp only at hok ⊢
    generalize hstep : (if c1 < c2 then growFile s c1 (c2 - c1)
        else if c2 < c1 then shrinkFile s c1 (c1 - c2)
        else (s, Except.ok ())) = rstep at hok ⊢
    rcases rstep with ⟨s1, es | u⟩
    · simp at hok
    dsimp only at hok ⊢
    -- whenever S = 0, the step state has a FREE start cluster
    have hs1start : S = 0 → s1.node.start_cluster = EXFAT_CLUSTER_FREE := by
      intro h0
      subst h0
      rw [bytes2clusters_zero] at hb2
      have hc2 : c2 = 0 := (Except.ok.inj hb2).symm
      subst hc2
      by_cases hc1 : 0 < c1
      · rw [if_neg (by omega), if_pos hc1] at hstep
        by_cases hfree : s.node.start_cluster = EXFAT_CLUSTER_FREE
        · unfold shrinkFile at hstep
          rw [if_neg (by omega), if_pos hfree] at hstep
          simp at hstep
        · have hfr := shrinkFile_start_free s c1 (c1 - 0) (by omega) hfree (by omega)
          rw [hstep] at hfr
          exact hfr
      · have hc10 : c1 = 0 := by omega
        subst hc10
        rw [if_neg (by omega), if_neg (by omega)] at hstep
        injection hstep with hA hB
        rw [← hA]
        exact hstart (bytes2clusters_eq_zero s s.node.size hb1)
    by_cases herase : erase = true
    · rw [if_pos herase] at hok ⊢
      generalize her : eraseRange s1 s1.node.valid_size S = rer at hok ⊢
      rcases rer with ⟨s2, ee | u2⟩
      · simp at hok
      · dsimp only at hok ⊢
        refine ⟨rfl, le_refl S, fun h0 => ?_⟩
        have h2 : s2.node.start_cluster = s1.node.start_cluster := by
          have h3 := eraseRange_node_start s1 s1.node.valid_size S
          rw [her] at h3
          exact h3
        rw [h2]
        exact hs1start h0
    · rw [if_neg herase] at hok ⊢
      dsimp only at hok ⊢
      exact ⟨rfl, by omega, fun h0 => hs1start h0⟩

/-- Witness for `truncate_spec`: truncating the concrete one-cluster file to
zero without erase. -/
theorem truncate_spec_witness :
    (0 < vsW.node.references ∧ vsW.node.valid_size ≤ vsW.node.size ∧
      (vsW.node.size = 0 → vsW.node.start_cluster = EXFAT_CLUSTER_FREE) ∧
      (truncate vsW 0 false).snd = .ok ()) ∧
    (((truncate vsW 0 false).fst).node.size = 0 ∧
     ((truncate vsW 0 false).fst).node.valid_size ≤ 0 ∧
     (0 = 0 → ((truncate vsW 0 false).fst).node.start_cluster = EXFAT_CLUSTER_FREE)) :=
  ⟨⟨by decide, by decide, by decide, rfl⟩,
    truncate_spec vsW 0 false (by decide) (by decide) (by decide) rfl⟩

/-- Detaching a nid removes every entry with that key from the map. -/
theorem nmDetach_find_none (m : NodeMap) (dnid nid : Nat) :
    List.find? (fun p => p.fst = nid) (nmDetach m dnid nid) = none := by
  rw [List.find?_eq_none]
  intro x hx
  unfold nmDetach at hx
  rw [List.mem_map] at hx
  obtain ⟨y, hy, hxy⟩ := hx
  rw [List.mem_filter] at hy
  have hyne : ¬ y.fst = nid := by simpa using hy.2
  have hfst : x.fst = y.fst := by
    rw [← hxy]
    split <;> rfl
  simp [hfst, hyne]

/-- A detached nid no longer resolves in the map. -/
theorem nmLookup_detach_self (m : NodeMap) (dnid nid : Nat) :
    nmLookup (nmDetach m dnid nid) nid = none := by
  unfold nmLookup
  rw [nmDetach_find_none]

/-- C6: `unlink` returns `EBUSY` when the reference count exceeds 1 and
`EISDIR` on a directory; `rmdir` returns `EBUSY` when the reference count
exceeds 1, `ENOTDIR` on a non-directory and `ENOTEMPTY` when the (cached)
directory still has children; on any of these errors the node map is left
untouched (the node is not deleted), and only when none of the conditions
hold is the node removed from the map. -/
theorem unlink_rmdir_spec (m : NodeMap) (nid : Nat) (node : CNode)
    (hl : nmLookup m nid = some node) (hc : node.is_cached = true) :
    ((unlink m nid).snd = (if node.references > 1 then .error .ebusy
        else if cnIsDirectory node then .error .eisdir else .ok ())) ∧
    ((rmdir m nid).snd = (if node.references > 1 then .error .ebusy
        else if cnIsDirectory node = false then .error .enotdir
        else if node.cnids ≠ [] then .error .enotempty else .ok ())) ∧
    (∀ e, (unlink m nid).snd = .error e → (unlink m nid).fst = m) ∧
    (∀ e, (rmdir m nid).snd = .error e → (rmdir m nid).fst = m) ∧
    ((unlink m nid).snd = .ok () → nmLookup ((unlink m nid).fst) nid = none) ∧
    ((rmdir m nid).snd = .ok () → nmLookup ((rmdir m nid).fst) nid = none) := by
  have hdel : deleteNode m nid = (nmDetach m node.pnid nid, .ok ()) := by
    unfold deleteNode
    rw [hl]
  have hcache : cacheDirectory m nid = (m, .ok ()) := by
    unfold cacheDirectory
    rw [hl]
    dsimp only
    rw [if_pos hc]
  have hunlink : unlink m nid = (if node.references > 1 then (m, .error .ebusy)
      else if cnIsDirectory node then (m, .error .eisdir)
      else (nmDetach m node.pnid nid, .ok ())) := by
    unfold unlink
    rw [hl]
    dsimp only
    rw [hdel]
  have hrmdir : rmdir m nid = (if node.references > 1 then (m, .error .ebusy)
      else if cnIsDirectory node = false then (m, .error .enotdir)
      else if node.cnids ≠ [] then (m, .error .enotempty)
      else (nmDetach m node.pnid nid, .ok ())) := by
    unfold rmdir
    rw [hl]
    dsimp only
    rw [hcache]
    dsimp only
    rw [hl]
    dsimp only
    rw [hdel]
  refine ⟨?_, ?_, ?_, ?_, ?_, ?_⟩
  · rw [hunlink]
    split_ifs <;> rfl
  · rw [hrmdir]
    split_ifs <;> rfl
  · rw [hunlink]
    split_ifs <;> intro e he
    · rfl
    · rfl
    · cases he
  · rw [hrmdir]
    split_ifs <;> intro e he
    · rfl
    · rfl
    · rfl
    · cases he
  · rw [hunlink]
    split_ifs <;> intro he
    · cases he
    · cases he
    · exact nmLookup_detach_self m node.pnid nid
  · rw [hrmdir]
    split_ifs <;> intro he
    · cases he
    · cases he
    · cases he
    · exact nmLookup_detach_self m node.pnid nid

/-- Witness for `unlink_rmdir_spec` on the concrete two-node map. -/
theorem unlink_rmdir_spec_witness :
    (nmLookup nmapW 5 = some cnodeW ∧ cnodeW.is_cached = true) ∧
    (((unlink nmapW 5).snd = (if cnodeW.references > 1 then .error .ebusy
        else if cnIsDirectory cnodeW then .error .eisdir else .ok ())) ∧
    ((rmdir nmapW 5).snd = (if cnodeW.references > 1 then .error .ebusy
        else if cnIsDirectory cnodeW = false then .error .enotdir
        else if cnodeW.cnids ≠ [] then .error .enotempty else .ok ())) ∧
    (∀ e, (unlink nmapW 5).snd = .error e → (unlink nmapW 5).fst = nmapW) ∧
    (∀ e, (rmdir nmapW 5).snd = .error e → (rmdir nmapW 5).fst = nmapW) ∧
    ((unlink nmapW 5).snd = .ok () → nmLookup ((unlink nmapW 5).fst) 5 = none) ∧
    ((rmdir nmapW 5).snd = .ok () → nmLookup ((rmdir nmapW 5).fst) 5 = none)) :=
  ⟨⟨rfl, rfl⟩, unlink_rmdir_spec nmapW 5 cnodeW rfl rfl⟩

/-- Length of a device read. -/
theorem readRange_length (d : Nat → Nat) (off n : Nat) : (readRange d off n).length = n := by
  simp [readRange]

/-- Bytes of a device read. -/
theorem readRange_getD (d : Nat → Nat) (off n j : Nat) (h : j < n) :
    (readRange d off n).getD j 0 = d (off + j) := by
  simp [readRange, List.getD, List.getElem?_map, List.getElem?_range, h]

/-- Length of the in-place chunk write `buf[i..i+lsize] = chunk`. -/
theorem splice_length (b ch : List Nat) (i lsize : Nat) (hch : ch.length = lsize)
    (h : i + lsize ≤ b.length) :
    (b.take i ++ ch ++ b.drop (i + lsize)).length = b.length := by
  simp [hch]
  omega

/-- Bytes before the written chunk are unchanged. -/
theorem splice_getD_lt (b ch : List Nat) (i lsize k : Nat) (hch : ch.length = lsize)
    (h : i + lsize ≤ b.length) (hk : k < i) :
    (b.take i ++ ch ++ b.drop (i + lsize)).getD k 0 = b.getD k 0 := by
  have h1 : k < (b.take i ++ ch).length := by
    simp [hch]
    omega
  have h2 : k < (b.take i).length := by
    simp
    omega
  rw [List.getD_append _ _ _ _ h1, List.getD_append _ _ _ _ h2]
  simp [List.getD, List.getElem?_take, hk]

/-- Bytes of the written chunk. -/
theorem splice_getD_mid (b ch : List Nat) (i lsize k : Nat) (hch : ch.length = lsize)
    (h : i + lsize ≤ b.length) (hk : k < lsize) :
    (b.take i ++ ch ++ b.drop (i + lsize)).getD (i + k) 0 = ch.getD k 0 := by
  have hti : (b.take i).length = i := by
    simp
    omega
  have h1 : i + k < (b.take i ++ ch).length := by
    simp [hch, hti]
    omega
  rw [List.getD_append _ _ _ _ h1]
  have h2 : (b.take i).length ≤ i + k := by omega
  rw [List.getD_append_right _ _ _ _ h2, hti]
  simp

/-- Length of a zero fill (`start + n` within the buffer). -/
theorem zeroFill_length (b : List Nat) (st n : Nat) (h : st + n ≤ b.length) :
    (zeroFill b st n).length = b.length := by
  simp [zeroFill]
  omega

/-- Bytes before a zero fill are unchanged. -/
theorem zeroFill_getD_lt (b : List Nat) (st n k : Nat) (h : st + n ≤ b.length)
    (hk : k < st) :
    (zeroFill b st n).getD k 0 = b.getD k 0 := by
  unfold zeroFill
  exact splice_getD_lt b (List.replicate n 0) st n k (by simp) (by omega) hk

/-- Bytes inside a zero fill are zero. -/
theorem zeroFill_getD_mid (b : List Nat) (st n k : Nat) (h : st + n ≤ b.length)
    (hst : st ≤ k) (hk : k < st + n) :
    (zeroFill b st n).getD k 0 = 0 := by
  unfold zeroFill
  have hx : k = st + (k - st) := by omega
  rw [hx, splice_getD_mid b (List.replicate n 0) st n (k - st) (by simp) (by omega)
    (by omega)]
  have hlt : k - st < n := by omega
  simp [List.getD, List.getElem?_replicate, hlt]

/-- The cluster chain only depends on the start cluster, the contiguous flag
and the FAT. -/
theorem clusterAt_congr (t s : VState) (h1 : t.node.start_cluster = s.node.start_cluster)
    (h2 : t.node.is_contiguous = s.node.is_contiguous) (h3 : t.fat = s.fat) :
    ∀ k, clusterAt t k = clusterAt s k := by
  intro k
  induction k with
  | zero => exact h1
  | succ k ih => simp [clusterAt, nextCluster, h2, h3, ih]

/-- Moving the seek hint does not change the logical file bytes. -/
theorem fileByte_fptr (s : VState) (fi fc p : Nat) :
    fileByte { s with node := { s.node with fptr_index := fi, fptr_cluster := fc } } p =
      fileByte s p := by
  show s.disk (c2o s.sb (clusterAt
      { s with node := { s.node with fptr_index := fi, fptr_cluster := fc } }
      (p / getClusterSize s.sb)) + p % getClusterSize s.sb) =
    s.disk (c2o s.sb (clusterAt s (p / getClusterSize s.sb)) + p % getClusterSize s.sb)
  have h := clusterAt_congr
    { s with node := { s.node with fptr_index := fi, fptr_cluster := fc } } s
    rfl rfl rfl (p / getClusterSize s.sb)
  rw [h]

/-- The `advance_cluster` loop only rewrites the seek hint fields. -/
theorem advanceLoop_shape (count : Nat) :
    ∀ (n : Nat) (s : VState), ∃ fi fc,
      (advanceLoop count n s).fst =
        { s with node := { s.node with fptr_index := fi, fptr_cluster := fc } } := by
  intro n
  induction n with
  | zero => intro s; exact ⟨count, s.node.fptr_cluster, rfl⟩
  | succ n ih =>
    intro s
    rw [advanceLoop]
    dsimp only
    split
    · exact ⟨s.node.fptr_index, nextCluster s s.node.fptr_cluster, rfl⟩
    · obtain ⟨fi, fc, h⟩ := ih _
      exact ⟨fi, fc, by rw [h]⟩

/-- `advance_cluster` only rewrites the seek hint fields. -/
theorem advanceCluster_shape (s : VState) (count : Nat) :
    ∃ fi fc, (advanceCluster s count).fst =
      { s with node := { s.node with fptr_index := fi, fptr_cluster := fc } } := by
  unfold advanceCluster
  split
  · obtain ⟨fi, fc, h⟩ := advanceLoop_shape count _ _
    exact ⟨fi, fc, by rw [h]⟩
  · exact advanceLoop_shape count _ _

/-- When the `advance_cluster` loop succeeds from a consistent hint, it
returns the `count`-th cluster of the chain. -/
theorem advanceLoop_ok (count : Nat) :
    ∀ (n : Nat) (s s1 : VState) (c : Nat),
      n ≤ count →
      s.node.fptr_cluster = clusterAt s (count - n) →
      advanceLoop count n s = (s1, .ok c) →
      c = clusterAt s count := by
  intro n
  induction n with
  | zero =>
    intro s s1 c hn hfc h
    rw [advanceLoop] at h
    dsimp only at h
    injection h with h1 h2
    have h3 := Except.ok.inj h2
    rw [← h3]
    simpa using hfc
  | succ n ih =>
    intro s s1 c hn hfc h
    rw [advanceLoop] at h
    dsimp only at h
    split at h
    · cases h
    · have hcongr := clusterAt_congr
        { s with node := { s.node with fptr_cluster := nextCluster s s.node.fptr_cluster } }
        s rfl rfl rfl
      have hpre : ({ s with node :=
          { s.node with fptr_cluster := nextCluster s s.node.fptr_cluster } } :
            VState).node.fptr_cluster =
          clusterAt { s with node :=
            { s.node with fptr_cluster := nextCluster s s.node.fptr_cluster } }
            (count - n) := by
        show nextCluster s s.node.fptr_cluster = _
        rw [hcongr, hfc]
        have hx : count - n = (count - (n + 1)) + 1 := by omega
        rw [hx]
        rfl
      have := ih _ s1 c (by omega) hpre h
      rw [this, hcongr]

/-- Specialisation of `advanceLoop_ok` to the loop-entry iteration count. -/
theorem advanceLoop_ok_from (count : Nat) (s s1 : VState) (c : Nat)
    (hfc : s.node.fptr_cluster = clusterAt s s.node.fptr_index)
    (hle : s.node.fptr_index ≤ count)
    (h : advanceLoop count (count - s.node.fptr_index) s = (s1, .ok c)) :
    c = clusterAt s count := by
  apply advanceLoop_ok count (count - s.node.fptr_index) s s1 c (by omega) ?_ h
  have hx : count - (count - s.node.fptr_index) = s.node.fptr_index := by omega
  rw [hx]
  exact hfc

/-- When `advance_cluster` succeeds from a consistent hint, it returns the
`count`-th cluster of the chain. -/
theorem advanceCluster_ok (s : VState) (count : Nat) (s1 : VState) (c : Nat)
    (hfc : s.node.fptr_cluster = clusterAt s s.node.fptr_index)
    (h : advanceCluster s count = (s1, .ok c)) :
    c = clusterAt s count := by
  unfold advanceCluster at h
  split at h
  · have h1 := advanceLoop_ok_from count _ s1 c rfl (Nat.zero_le count) h
    rw [h1]
    exact clusterAt_congr _ s (by rfl) (by rfl) (by rfl) count
  · rename_i hle
    exact advanceLoop_ok_from count s s1 c hfc (by omega) h

/-- Correctness of the `pread` cluster loop: entered at file position `p`
(cluster `p / cluster_size` of the chain, in-cluster offset
`p % cluster_size`), a successful run consumes the whole remainder, keeps
the buffer length and the bytes before index `i`, and fills
`buf[i..i+remainder)` with the file bytes starting at position `p`. -/
theorem preadLoop_ok (s : VState) :
    ∀ (fuel remainder i : Nat) (buf : List Nat) (p r : Nat) (buf' : List Nat),
      remainder ≤ fuel →
      i + remainder ≤ buf.length →
      preadLoop s fuel (clusterAt s (p / getClusterSize s.sb))
        (p % getClusterSize s.sb) remainder i buf = .ok (r, buf') →
      r = 0 ∧ buf'.length = buf.length ∧
      (∀ k, k < i → buf'.getD k 0 = buf.getD k 0) ∧
      (∀ k, k < remainder → buf'.getD (i + k) 0 = fileByte s (p + k)) := by
  intro fuel
  induction fuel with
  | zero =>
    intro remainder i buf p r buf' hrem hlen h
    rw [preadLoop] at h
    have h2 := Except.ok.inj h
    injection h2 with ha hb
    refine ⟨by omega, by rw [← hb], fun k _ => by rw [← hb], fun k hk => ?_⟩
    omega
  | succ fuel ih =>
    intro remainder i buf p r buf' hrem hlen h
    rw [preadLoop] at h
    dsimp only at h
    by_cases hr0 : remainder = 0
    · rw [if_pos hr0] at h
      have h2 := Except.ok.inj h
      injection h2 with ha hb
      refine ⟨ha.symm, by rw [← hb], fun k _ => by rw [← hb], fun k hk => ?_⟩
      omega
    · rw [if_neg hr0] at h
      split at h
      · cases h
      · have hcs0 : 0 < getClusterSize s.sb := getClusterSize_pos s.sb
        have hmodlt : p % getClusterSize s.sb < getClusterSize s.sb := Nat.mod_lt _ hcs0
        set cs := getClusterSize s.sb with hcsdef
        set lsize := min (cs - p % cs) remainder with hlsizedef
        set chunk := readRange s.disk (c2o s.sb (clusterAt s (p / cs)) + p % cs) lsize
          with hchunkdef
        set buf2 := buf.take i ++ chunk ++ buf.drop (i + lsize) with hbuf2def
        have hls1 : 1 ≤ lsize := by omega
        have hlsr : lsize ≤ remainder := by omega
        have hdm := Nat.div_add_mod p cs
        have hp1div : ((p / cs + 1) * cs) / cs = p / cs + 1 :=
          Nat.mul_div_cancel (p / cs + 1) hcs0
        have hp1mod : ((p / cs + 1) * cs) % cs = 0 := Nat.mul_mod_left _ _
        have hclnext : nextCluster s (clusterAt s (p / cs)) =
            clusterAt s (((p / cs + 1) * cs) / cs) := by
          rw [hp1div]
          rfl
        have h2 : preadLoop s fuel (clusterAt s (((p / cs + 1) * cs) / cs))
            (((p / cs + 1) * cs) % cs) (remainder - lsize) (i + lsize) buf2
            = .ok (r, buf') := by
          rw [hp1mod, ← hclnext]
          exact h
        have hchlen : chunk.length = lsize := by
          rw [hchunkdef]
          exact readRange_length _ _ _
        have hlen2 : buf2.length = buf.length := by
          rw [hbuf2def]
          exact splice_length buf chunk i lsize hchlen (by omega)
        obtain ⟨q1, q2, q3, q4⟩ := ih (remainder - lsize) (i + lsize) buf2
          ((p / cs + 1) * cs) r buf' (by omega) (by omega) h2
        refine ⟨q1, by omega, ?_, ?_⟩
        · intro k hk
          rw [q3 k (by omega), hbuf2def]
          exact splice_getD_lt buf chunk i lsize k hchlen (by omega) hk
        · intro k hk
          by_cases hkl : k < lsize
          · rw [q3 (i + k) (by omega), hbuf2def,
              splice_getD_mid buf chunk i lsize k hchlen (by omega) hkl, hchunkdef,
              readRange_getD _ _ _ k hkl]
            have hmodk : p % cs + k < cs := by omega
            have hpk : p + k = cs * (p / cs) + (p % cs + k) := by omega
            have hdiv2 : (p + k) / cs = p / cs := by
              rw [hpk, Nat.mul_add_div hcs0, Nat.div_eq_of_lt hmodk, Nat.add_zero]
            have hmod2 : (p + k) % cs = p % cs + k := by
              rw [hpk, Nat.mul_add_mod, Nat.mod_eq_of_lt hmodk]
            unfold fileByte
            rw [← hcsdef, hdiv2, hmod2, Nat.add_assoc]
          · have hlseq : lsize = cs - p % cs := by omega
            have hik : i + k = (i + lsize) + (k - lsize) := by omega
            rw [hik, q4 (k - lsize) (by omega)]
            have hX : (p / cs + 1) * cs = cs * (p / cs) + cs := by ring
            have harg : (p / cs + 1) * cs + (k - lsize) = p + k := by omega
            rw [harg]

/-- Correctness of the cluster-read path of `pread`: a successful
`preadData` returns `min(len, size - offset)` bytes, preserves the buffer
length, and fills the returned prefix with the node's file bytes starting
at `offset`. -/
theorem preadData_ok (s : VState) (buf : List Nat) (offset : Nat) (s' : VState)
    (r : Nat) (buf' : List Nat)
    (hfc : s.node.fptr_cluster = clusterAt s s.node.fptr_index)
    (hok : preadData s buf offset = (s', .ok (r, buf'))) :
    r = min buf.length (s.node.size - offset) ∧
    buf'.length = buf.length ∧
    (∀ k, k < r → buf'.getD k 0 = fileByte s (offset + k)) := by
  unfold preadData at hok
  dsimp only at hok
  split at hok
  · simp at hok
  · generalize hadv : advanceCluster s (offset / getClusterSize s.sb) = radv at hok
    rcases radv with ⟨s1, e | cluster⟩
    · simp at hok
    · dsimp only at hok
      have hcl : cluster = clusterAt s (offset / getClusterSize s.sb) :=
        advanceCluster_ok s _ s1 cluster hfc hadv
      obtain ⟨fi, fc, hshape⟩ := advanceCluster_shape s (offset / getClusterSize s.sb)
      rw [hadv] at hshape
      dsimp only at hshape
      generalize hloop : preadLoop s1 (min buf.length (s.node.size - offset)) cluster
          (offset % getClusterSize s.sb) (min buf.length (s.node.size - offset)) 0 buf
          = rloop at hok
      rcases rloop with e2 | ⟨remainder, bufx⟩
      · simp at hok
      · dsimp only at hok
        have hfin := congrArg Prod.snd hok
        dsimp only at hfin
        have hfin2 := Except.ok.inj hfin
        injection hfin2 with hr hb
        have hc1 : s1.node.start_cluster = s.node.start_cluster := by rw [hshape]
        have hc2 : s1.node.is_contiguous = s.node.is_contiguous := by rw [hshape]
        have hc3 : s1.fat = s.fat := by rw [hshape]
        have hsb : s1.sb = s.sb := by rw [hshape]
        have hdisk : s1.disk = s.disk := by rw [hshape]
        have hcongr := clusterAt_congr s1 s hc1 hc2 hc3
        have hfb : ∀ q, fileByte s1 q = fileByte s q := by
          intro q
          unfold fileByte
          rw [hdisk, hsb, hcongr]
        have hcall : preadLoop s1 (min buf.length (s.node.size - offset))
            (clusterAt s1 (offset / getClusterSize s1.sb))
            (offset % getClusterSize s1.sb)
            (min buf.length (s.node.size - offset)) 0 buf = .ok (remainder, bufx) := by
          rw [hsb, hcongr, ← hcl]
          exact hloop
        obtain ⟨q1, q2, q3, q4⟩ := preadLoop_ok s1
          (min buf.length (s.node.size - offset)) (min buf.length (s.node.size - offset))
          0 buf offset remainder bufx (le_refl _) (by omega) hcall
        refine ⟨by omega, ?_, ?_⟩
        · rw [← hb]
          exact q2
        · intro k hk
          rw [← hb]
          have hk2 : k < min buf.length (s.node.size - offset) := by omega
          have hq := q4 k hk2
          rw [Nat.zero_add] at hq
          rw [hq]
          exact hfb (offset + k)

/-- C2: a successful `pread(nid, buf, offset)` returns 0 when `offset` is at
or past the node size or the buffer is empty; otherwise it returns
`min(buf.len(), size - offset)` bytes in which every byte at a file
position at or beyond `valid_size` is zero while bytes below `valid_size`
are read from the node's cluster chain. -/
theorem pread_spec (s : VState) (buf : List Nat) (offset : Nat)
    (hvs : s.node.valid_size ≤ s.node.size)
    (hfc : s.node.fptr_cluster = clusterAt s s.node.fptr_index)
    (s' : VState) (r : Nat) (buf' : List Nat)
    (hok : pread s buf offset = (s', .ok (r, buf'))) :
    ((offset ≥ s.node.size ∨ buf = []) → r = 0 ∧ buf' = buf) ∧
    (offset < s.node.size → buf ≠ [] →
      r = min buf.length (s.node.size - offset) ∧
      buf'.length = buf.length ∧
      ∀ k, k < r → buf'.getD k 0 =
        if offset + k < s.node.valid_size then fileByte s (offset + k) else 0) := by
  unfold pread at hok
  dsimp only at hok
  by_cases hcase : offset ≥ s.node.size ∨ buf.length = 0
  · rw [if_pos hcase] at hok
    injection hok with h1 h2
    have h3 := Except.ok.inj h2
    injection h3 with hr hb
    constructor
    · intro _
      exact ⟨hr.symm, hb.symm⟩
    · intro ho hb2
      rcases hcase with hc | hc
      · omega
      · exact absurd (List.length_eq_zero.mp hc) hb2
  · rw [if_neg hcase] at hok
    push_neg at hcase
    obtain ⟨ho, hlen0⟩ := hcase
    refine ⟨fun hcon => ?_, fun _ _ => ?_⟩
    · rcases hcon with hc | hc
      · omega
      · rw [hc] at hlen0
        simp at hlen0
    · by_cases hvz : offset + buf.length > s.node.valid_size
      · rw [if_pos hvz] at hok
        by_cases hov : offset < s.node.valid_size
        · rw [if_pos hov] at hok
          generalize hinner :
            preadData s (buf.take (s.node.valid_size - offset)) offset = rin at hok
          rcases rin with ⟨s1, e | ⟨bytes, pre⟩⟩
          · simp at hok
          · dsimp only at hok
            have htlen : (buf.take (s.node.valid_size - offset)).length
                = s.node.valid_size - offset := by
              simp
              omega
            obtain ⟨p1, p2, p3⟩ := preadData_ok s _ offset s1 bytes pre hfc hinner
            have hbytes : bytes = s.node.valid_size - offset := by
              rw [p1, htlen]
              omega
            rw [if_neg (by omega)] at hok
            injection hok with h1 h2
            have h3 := Except.ok.inj h2
            injection h3 with hr hb
            have hprelen : pre.length = s.node.valid_size - offset := by
              rw [p2, htlen]
            have hbuf2len : (pre ++ buf.drop (s.node.valid_size - offset)).length
                = buf.length := by
              simp [hprelen]
              omega
            have hz : bytes + min (buf.length - bytes)
                (s.node.size - s.node.valid_size)
                ≤ (pre ++ buf.drop (s.node.valid_size - offset)).length := by
              rw [hbuf2len]
              omega
            refine ⟨hr.symm, ?_, ?_⟩
            · rw [← hb]
              rw [zeroFill_length _ _ _ hz, hbuf2len]
            · intro k hk
              rw [← hb]
              by_cases hkb : k < bytes
              · rw [zeroFill_getD_lt _ _ _ _ hz (by omega)]
                have hkpre : k < pre.length := by omega
                rw [List.getD_append _ _ _ _ hkpre]
                rw [p3 k (by omega)]
                rw [if_pos (by omega)]
              · have hkz : k < bytes + min (buf.length - bytes)
                    (s.node.size - s.node.valid_size) := by
                  rw [← hr] at hk
                  omega
                rw [zeroFill_getD_mid _ _ _ _ hz (by omega) hkz]
                rw [if_neg (by omega)]
        · rw [if_neg hov] at hok
          injection hok with h1 h2
          have h3 := Except.ok.inj h2
          injection h3 with hr hb
          have hz : 0 + min buf.length (s.node.size - s.node.valid_size)
              ≤ buf.length := by omega
          refine ⟨hr.symm, ?_, ?_⟩
          · rw [← hb, zeroFill_length _ _ _ hz]
          · intro k hk
            rw [← hb]
            have hkz : k < 0 + min buf.length (s.node.size - s.node.valid_size) := by
              rw [← hr] at hk
              omega
            rw [zeroFill_getD_mid _ _ _ _ hz (by omega) hkz]
            rw [if_neg (by omega)]
      · rw [if_neg hvz] at hok
        obtain ⟨p1, p2, p3⟩ := preadData_ok s buf offset s' r buf' hfc hok
        refine ⟨p1, p2, fun k hk => ?_⟩
        rw [if_pos (by omega)]
        exact p3 k hk

/-- Witness for `pread_spec`: reading three bytes at offset 0 of the
concrete file, whose valid size is 0, returns three zero bytes. -/
theorem pread_spec_witness :
    (vsW.node.valid_size ≤ vsW.node.size ∧
      vsW.node.fptr_cluster = clusterAt vsW vsW.node.fptr_index ∧
      pread vsW [1, 2, 3] 0 = ((pread vsW [1, 2, 3] 0).fst, .ok (3, [0, 0, 0]))) ∧
    (((0 ≥ vsW.node.size ∨ ([1, 2, 3] : List Nat) = []) → 3 = 0 ∧ ([0, 0, 0] : List Nat) = [1, 2, 3]) ∧
    (0 < vsW.node.size → ([1, 2, 3] : List Nat) ≠ [] →
      3 = min ([1, 2, 3] : List Nat).length (vsW.node.size - 0) ∧
      ([0, 0, 0] : List Nat).length = ([1, 2, 3] : List Nat).length ∧
      ∀ k, k < 3 → ([0, 0, 0] : List Nat).getD k 0 =
        if 0 + k < vsW.node.valid_size then fileByte vsW (0 + k) else 0)) :=
  ⟨⟨by decide, rfl, rfl⟩,
    pread_spec vsW [1, 2, 3] 0 (by decide) rfl (pread vsW [1, 2, 3] 0).fst 3 [0, 0, 0] rfl⟩

end LibExfat